import Mathlib

/-!
Verification development for the event-listener crate: a shallow embedding of
its metadata model, type-hashing engine, hash cache, and client construction,
with theorems checking the crate's specification against the code.

Embedding conventions:
- machine integers (u8/u32/u64) are `Nat` with explicit `% 2^64` where overflow
  matters; byte strings are `List Nat` with every element below 256;
- the 32-byte hashes of `sp_core::hashing::twox_256` are `List Nat` of length 32,
  computed by a faithful implementation of the XXH64 algorithm (the twox family
  is four seeded XXH64 runs, little-endian concatenated);
- `registry.resolve(id).unwrap()` (which panics in Rust when the id does not
  resolve) is modelled by an `Except Panic` layer: `Panic.unresolvedType id`
  marks exactly the inputs on which the Rust code would panic;
- the recursion of `get_type_hash` is general recursion in Rust; here it takes a
  fuel argument counting nested type-id resolutions. `Panic.fuelExhausted` marks
  a fuel runout; the termination theorems show a fuel bound depending only on
  the registry under which no runout occurs, i.e. the recursion depth is bounded.
-/

namespace EventListener

/-! ### Section 1: bytes and the twox-256 hash (sp_core::hashing::twox_256) -/

def xxP1 : Nat := 11400714785074694791

def xxP2 : Nat := 14029467366897019727

def xxP3 : Nat := 1609587929392839161

def xxP4 : Nat := 9650029242287828579

def xxP5 : Nat := 2870177450012600261

/-- Reduction modulo 2^64: all XXH64 arithmetic is on u64. -/
def m64 (x : Nat) : Nat := x % 18446744073709551616

/-- Rotate a u64 left by `r` bits (for `x < 2^64`, `r < 64`). -/
def rotl64 (x r : Nat) : Nat := m64 (x * 2 ^ r) + x / 2 ^ (64 - r)

def xxRound (acc lane : Nat) : Nat := m64 (rotl64 (m64 (acc + m64 (lane * xxP2))) 31 * xxP1)

def xxMergeRound (h acc : Nat) : Nat := m64 ((h ^^^ xxRound 0 acc) * xxP1 + xxP4)

/-- Little-endian u64 from eight bytes. -/
def le64 (b0 b1 b2 b3 b4 b5 b6 b7 : Nat) : Nat :=
  b0 + b1 * 2 ^ 8 + b2 * 2 ^ 16 + b3 * 2 ^ 24 + b4 * 2 ^ 32 + b5 * 2 ^ 40 + b6 * 2 ^ 48 + b7 * 2 ^ 56

/-- Little-endian u32 from four bytes. -/
def le32 (b0 b1 b2 b3 : Nat) : Nat := b0 + b1 * 2 ^ 8 + b2 * 2 ^ 16 + b3 * 2 ^ 24

/-- XXH64 main loop: consume 32-byte stripes while at least 32 bytes remain. -/
def xxStripes : Nat → Nat → Nat → Nat → List Nat → Nat × Nat × Nat × Nat × List Nat
  | a1, a2, a3, a4, b0 :: b1 :: b2 :: b3 :: b4 :: b5 :: b6 :: b7 :: b8 :: b9 :: b10 :: b11 :: b12 :: b13 :: b14 :: b15 :: b16 :: b17 :: b18 :: b19 :: b20 :: b21 :: b22 :: b23 :: b24 :: b25 :: b26 :: b27 :: b28 :: b29 :: b30 :: b31 :: rest =>
      xxStripes (xxRound a1 (le64 b0 b1 b2 b3 b4 b5 b6 b7))
        (xxRound a2 (le64 b8 b9 b10 b11 b12 b13 b14 b15))
        (xxRound a3 (le64 b16 b17 b18 b19 b20 b21 b22 b23))
        (xxRound a4 (le64 b24 b25 b26 b27 b28 b29 b30 b31)) rest
  | a1, a2, a3, a4, rest => (a1, a2, a3, a4, rest)

/-- XXH64 tail: 8-byte chunks, then an optional 4-byte chunk, then single bytes. -/
def xxFinalize (h : Nat) : List Nat → Nat
  | b0 :: b1 :: b2 :: b3 :: b4 :: b5 :: b6 :: b7 :: rest =>
      xxFinalize (m64 (rotl64 (h ^^^ xxRound 0 (le64 b0 b1 b2 b3 b4 b5 b6 b7)) 27 * xxP1 + xxP4)) rest
  | b0 :: b1 :: b2 :: b3 :: rest =>
      xxFinalize (m64 (rotl64 (h ^^^ m64 (le32 b0 b1 b2 b3 * xxP1)) 23 * xxP2 + xxP3)) rest
  | b :: rest =>
      xxFinalize (m64 (rotl64 (h ^^^ m64 (b * xxP5)) 11 * xxP1)) rest
  | [] => h

def xxAvalanche (h : Nat) : Nat :=
  let h1 := h ^^^ (h >>> 33)
  let h2 := m64 (h1 * xxP2)
  let h3 := h2 ^^^ (h2 >>> 29)
  let h4 := m64 (h3 * xxP3)
  h4 ^^^ (h4 >>> 32)

/-- The XXH64 hash of a byte sequence with a given seed. -/
def xxhash64 (seed : Nat) (data : List Nat) : Nat :=
  let h :=
    if 32 ≤ data.length then
      let s := xxStripes (m64 (seed + xxP1 + xxP2)) (m64 (seed + xxP2)) (m64 seed)
        (m64 (seed + (18446744073709551616 - xxP1))) data
      let h0 := m64 (rotl64 s.1 1 + rotl64 s.2.1 7 + rotl64 s.2.2.1 12 + rotl64 s.2.2.2.1 18)
      let h1 := xxMergeRound h0 s.1
      let h2 := xxMergeRound h1 s.2.1
      let h3 := xxMergeRound h2 s.2.2.1
      let h4 := xxMergeRound h3 s.2.2.2.1
      xxFinalize (m64 (h4 + data.length)) s.2.2.2.2
    else
      xxFinalize (m64 (seed + xxP5 + data.length)) data
  xxAvalanche h

/-- The eight little-endian bytes of a u64. -/
def toLeBytes8 (n : Nat) : List Nat :=
  [n % 256, n / 2 ^ 8 % 256, n / 2 ^ 16 % 256, n / 2 ^ 24 % 256,
   n / 2 ^ 32 % 256, n / 2 ^ 40 % 256, n / 2 ^ 48 % 256, n / 2 ^ 56 % 256]

/-- sp_core::hashing::twox_256: four seeded XXH64 runs, concatenated little-endian. -/
def twox_256 (data : List Nat) : List Nat :=
  toLeBytes8 (xxhash64 0 data) ++ toLeBytes8 (xxhash64 1 data) ++
  toLeBytes8 (xxhash64 2 data) ++ toLeBytes8 (xxhash64 3 data)

/-- A 32-byte hash value. -/
abbrev Hash := List Nat

/-- metadata_utils::hash: the hashing function utilised internally. -/
def hash (bytes : List Nat) : Hash := twox_256 bytes

/-- metadata_utils::xor: XOR two hashes together, byte by byte (source fn `xor`). -/
def xorBytes (a b : Hash) : Hash := List.zipWith (fun x y => x ^^^ y) a b

/-- metadata_utils::hash_hashes: combine two hashes by concatenating then rehashing. -/
def hash_hashes (a b : Hash) : Hash := hash (a ++ b)

/-- UTF-8 bytes of a string (`str::as_bytes`); all names in scope are ASCII,
where the UTF-8 bytes are exactly the code points. -/
def strBytes (s : String) : List Nat := s.data.map (fun c => c.toNat)

/-- Big-endian bytes of a u32 (`u32::to_be_bytes`), used for array lengths. -/
def be32 (n : Nat) : List Nat := [n / 2 ^ 24 % 256, n / 2 ^ 16 % 256, n / 2 ^ 8 % 256, n % 256]

/-! ### Section 2: the scale-info portable type registry (external collaborator
of the crate, modelled to the extent the crate reads it) -/

/-- scale_info::TypeDefPrimitive with its discriminant order. -/
inductive TypeDefPrimitive where
  | bool | char | str | u8 | u16 | u32 | u64 | u128 | u256
  | i8 | i16 | i32 | i64 | i128 | i256
deriving DecidableEq

def TypeDefPrimitive.toByte : TypeDefPrimitive → Nat
  | .bool => 0 | .char => 1 | .str => 2 | .u8 => 3 | .u16 => 4 | .u32 => 5
  | .u64 => 6 | .u128 => 7 | .u256 => 8 | .i8 => 9 | .i16 => 10 | .i32 => 11
  | .i64 => 12 | .i128 => 13 | .i256 => 14

/-- scale_info::Field (portable form): optional name and the type id.
The crate reads only `name()` and `ty().id()`. -/
structure Field where
  name : Option String
  ty : Nat
deriving DecidableEq

/-- scale_info::Variant (portable form): name, fields, index, docs. -/
structure Variant where
  name : String
  fields : List Field
  index : Nat
  docs : List String
deriving DecidableEq

/-- scale_info::TypeDef (portable form). Sub-types are referenced by type id. -/
inductive TypeDef where
  | composite (fields : List Field)
  | variant (variants : List Variant)
  | sequence (typeParam : Nat)
  | array (len : Nat) (typeParam : Nat)
  | tuple (fields : List Nat)
  | primitive (p : TypeDefPrimitive)
  | compact (typeParam : Nat)
  | bitSequence (bitOrderType bitStoreType : Nat)
deriving DecidableEq

/-- scale_info::PortableRegistry: a table from numeric type ids to type
definitions; `resolve` looks a type id up (None when absent). -/
structure Registry where
  types : List (Nat × TypeDef)
deriving DecidableEq

def Registry.resolve (r : Registry) (id : Nat) : Option TypeDef :=
  (r.types.find? (fun p => p.1 == id)).map Prod.snd

/-! ### Section 3: frame-metadata V14 (external collaborator, modelled to the
extent the crate reads it) -/

/-- frame_metadata::StorageHasher with its discriminant order. -/
inductive StorageHasher where
  | blake2_128 | blake2_256 | blake2_128Concat | twox128 | twox256 | twox64Concat | identity
deriving DecidableEq

def StorageHasher.toByte : StorageHasher → Nat
  | .blake2_128 => 0 | .blake2_256 => 1 | .blake2_128Concat => 2
  | .twox128 => 3 | .twox256 => 4 | .twox64Concat => 5 | .identity => 6

/-- frame_metadata::StorageEntryModifier. -/
inductive StorageEntryModifier where
  | optional | default
deriving DecidableEq

def StorageEntryModifier.toByte : StorageEntryModifier → Nat
  | .optional => 0 | .default => 1

/-- frame_metadata::StorageEntryType: Plain carries a type id, Map carries
hashers plus key and value type ids. -/
inductive StorageEntryType where
  | plain (ty : Nat)
  | map (hashers : List StorageHasher) (key : Nat) (value : Nat)
deriving DecidableEq

/-- frame_metadata::StorageEntryMetadata. -/
structure StorageEntryMetadata where
  name : String
  modifier : StorageEntryModifier
  ty : StorageEntryType
  default : List Nat
  docs : List String
deriving DecidableEq

/-- frame_metadata::PalletStorageMetadata (source field `prefix` is
`storagePrefix` here). -/
structure PalletStorageMetadata where
  storagePrefix : String
  entries : List StorageEntryMetadata
deriving DecidableEq

/-- frame_metadata::PalletMetadata. `calls`/`event`/`error` carry type ids
(the crate reads `event.ty.id()`); constants are (name, type id) pairs, their
value and docs being unread by the crate. -/
structure PalletMetadata where
  name : String
  index : Nat
  calls : Option Nat
  storage : Option PalletStorageMetadata
  constants : List (String × Nat)
  event : Option Nat
  error : Option Nat
deriving DecidableEq

/-- frame_metadata::ExtrinsicMetadata (signed extensions unread, omitted). -/
structure ExtrinsicMetadata where
  ty : Nat
  version : Nat
deriving DecidableEq

/-- frame_metadata::RuntimeMetadataV14. -/
structure RuntimeMetadataV14 where
  types : Registry
  pallets : List PalletMetadata
  extrinsic : ExtrinsicMetadata
  ty : Nat
deriving DecidableEq

/-- frame_metadata::RuntimeMetadata: the versioned payload; every version other
than V14 is opaque to the crate and carried here as its version number. -/
inductive RuntimeMetadata where
  | v14 (m : RuntimeMetadataV14)
  | otherVersion (v : Nat)
deriving DecidableEq

/-- frame_metadata::RuntimeMetadataPrefixed: magic number and payload. -/
structure RuntimeMetadataPrefixed where
  magic : Nat
  meta : RuntimeMetadata
deriving DecidableEq

/-- frame_metadata::META_RESERVED, the 4-byte magic prefix "meta". -/
def META_RESERVED : Nat := 0x6d657461

/-! ### Section 4: metadata_utils.rs, the type-hash engine -/

/-- A Rust-side abnormal termination of the hashing code: `unresolvedType id`
models the panic of `registry.resolve(id).unwrap()` on an unresolvable id;
`fuelExhausted` is an artifact of the fuel-based embedding of the general
recursion and is ruled out by the termination theorems. -/
inductive Panic where
  | fuelExhausted
  | unresolvedType (id : Nat)
deriving DecidableEq

abbrev PanicM (α : Type) := Except Panic α

/-- metadata_utils::get_field_hash, parameterised by the recursive call into
`get_type_hash` (`recur`), which threads the visited-id set. -/
def get_field_hash (recur : Nat → List Nat → PanicM (Hash × List Nat))
    (field : Field) (visited : List Nat) : PanicM (Hash × List Nat) := do
  let (bytes, v1) ← recur field.ty visited
  match field.name with
  | some n => .ok (xorBytes bytes (hash (strBytes n)), v1)
  | none => .ok (bytes, v1)

/-- The field loops of get_type_def_hash and get_variant_hash: fold
`hash_hashes` over the field hashes, threading the visited-id set. -/
def hash_fields (recur : Nat → List Nat → PanicM (Hash × List Nat)) :
    List Field → Hash → List Nat → PanicM (Hash × List Nat)
  | [], acc, visited => .ok (acc, visited)
  | f :: fs, acc, visited => do
      let (h, v1) ← get_field_hash recur f visited
      hash_fields recur fs (hash_hashes acc h) v1

/-- metadata_utils::get_variant_hash. -/
def get_variant_hash (recur : Nat → List Nat → PanicM (Hash × List Nat))
    (var : Variant) (visited : List Nat) : PanicM (Hash × List Nat) :=
  hash_fields recur var.fields (hash (strBytes var.name)) visited

/-- The variant loop of get_type_def_hash. -/
def hash_variants (recur : Nat → List Nat → PanicM (Hash × List Nat)) :
    List Variant → Hash → List Nat → PanicM (Hash × List Nat)
  | [], acc, visited => .ok (acc, visited)
  | var :: vars, acc, visited => do
      let (h, v1) ← get_variant_hash recur var visited
      hash_variants recur vars (hash_hashes acc h) v1

/-- The tuple loop of get_type_def_hash. -/
def hash_tuple (recur : Nat → List Nat → PanicM (Hash × List Nat)) :
    List Nat → Hash → List Nat → PanicM (Hash × List Nat)
  | [], acc, visited => .ok (acc, visited)
  | t :: ts, acc, visited => do
      let (h, v1) ← recur t visited
      hash_tuple recur ts (hash_hashes acc h) v1

/-- metadata_utils::get_type_def_hash. Tag bytes follow the TypeBeingHashed
discriminants: Composite 0, Variant 1, Sequence 2, Array 3, Tuple 4,
Primitive 5, Compact 6, BitSequence 7. -/
def get_type_def_hash (recur : Nat → List Nat → PanicM (Hash × List Nat))
    (ty_def : TypeDef) (visited : List Nat) : PanicM (Hash × List Nat) :=
  match ty_def with
  | .composite fields => hash_fields recur fields (hash [0]) visited
  | .variant variants => hash_variants recur variants (hash [1]) visited
  | .sequence tp => do
      let (h, v1) ← recur tp visited
      .ok (xorBytes (hash [2]) h, v1)
  | .array len tp => do
      let (h, v1) ← recur tp visited
      .ok (xorBytes (hash (3 :: be32 len)) h, v1)
  | .tuple ids => hash_tuple recur ids (hash [4]) visited
  | .primitive p => .ok (hash [5, p.toByte], visited)
  | .compact tp => do
      let (h, v1) ← recur tp visited
      .ok (xorBytes (hash [6]) h, v1)
  | .bitSequence bitOrder bitStore => do
      let (h1, v1) ← recur bitOrder visited
      let (h2, v2) ← recur bitStore v1
      .ok (xorBytes (xorBytes (hash [7]) h1) h2, v2)

/-- metadata_utils::get_type_hash: guard against revisited ids with the fixed
sentinel hash `hash [123]`, else resolve the id (panicking like the source's
`.unwrap()` when it is absent) and hash its definition. The fuel argument
bounds the depth of nested id resolutions. -/
def get_type_hash (r : Registry) : Nat → Nat → List Nat → PanicM (Hash × List Nat)
  | 0, _, _ => .error .fuelExhausted
  | fuel + 1, id, visited =>
    if visited.contains id then .ok (hash [123], visited)
    else
      match r.resolve id with
      | none => .error (.unresolvedType id)
      | some ty => get_type_def_hash (get_type_hash r fuel) ty (id :: visited)

/-- metadata_utils::get_storage_entry_hash. -/
def get_storage_entry_hash (registry : Registry) (fuel : Nat)
    (entry : StorageEntryMetadata) (visited : List Nat) : PanicM (Hash × List Nat) :=
  let bytes := hash (strBytes entry.name)
  let bytes := xorBytes bytes (hash [entry.modifier.toByte])
  let bytes := xorBytes bytes (hash entry.default)
  match entry.ty with
  | .plain tid => do
      let (h, v1) ← get_type_hash registry fuel tid visited
      .ok (xorBytes bytes h, v1)
  | .map hashers key value => do
      let bytes := hashers.foldl (fun b hr => hash_hashes b (List.replicate 32 hr.toByte)) bytes
      let (kh, v1) ← get_type_hash registry fuel key visited
      let bytes := xorBytes bytes kh
      let (vh, v2) ← get_type_hash registry fuel value v1
      .ok (xorBytes bytes vh, v2)

/-- metadata_utils::NotFound. -/
inductive NotFound where
  | pallet
  | item
deriving DecidableEq

/-- Ample fuel for hashing anything in a registry: the termination theorems
show a depth of nested id resolutions of at most the number of registry
entries, so this budget is never exhausted. -/
def storageFuel (r : Registry) : Nat := r.types.length + 1

/-- metadata_utils::get_storage_hash. -/
def get_storage_hash (metadata : RuntimeMetadataV14) (pallet_name storage_name : String) :
    PanicM (Except NotFound Hash) :=
  match metadata.pallets.find? (fun p => p.name == pallet_name) with
  | none => .ok (.error .pallet)
  | some pallet =>
    match pallet.storage with
    | none => .ok (.error .item)
    | some storage =>
      match storage.entries.find? (fun s => s.name == storage_name) with
      | none => .ok (.error .item)
      | some entry => do
          let (h, _) ← get_storage_entry_hash metadata.types (storageFuel metadata.types) entry []
          .ok (.ok h)

/-! ### Section 5: metadata_type.rs, the Metadata model and the hash cache -/

/-- metadata_type::MetadataError. -/
inductive MetadataError where
  | palletNotFound
  | callNotFound
  | eventNotFound (pallet_index : Nat) (event_index : Nat)
  | storageNotFound
  | constantNotFound
deriving DecidableEq

/-- metadata_type::EventMetadata: pallet name, variant name, (optional field
name, type id) pairs, docs. -/
structure EventMetadata where
  pallet : String
  event : String
  fields : List (Option String × Nat)
  docs : List String
deriving DecidableEq

/-- The events HashMap keyed by (pallet index, variant index); lookups take the
first (most recently inserted) match, modelling HashMap insert-overwrites. -/
abbrev EventsMap := List ((Nat × Nat) × EventMetadata)

def insertEvent (m : EventsMap) (k : Nat × Nat) (e : EventMetadata) : EventsMap := (k, e) :: m

def lookupEvent (m : EventsMap) (k : Nat × Nat) : Option EventMetadata :=
  (m.find? (fun kv => kv.1 == k)).map Prod.snd

/-- Modelled from the spec: hash_cache.rs is declared in metadata/mod.rs and
used by metadata_type.rs, but the file itself is absent from the sources. Per
the spec's 4.3 Hash Cache contract, get_or_insert(pallet, item, f) returns the
stored result (success or error) without invoking f on a hit, and on a miss
invokes f once and stores its result keyed by (pallet, item). -/
abbrev HashCache := List ((String × String) × Except MetadataError Hash)

def lookupCache (c : HashCache) (pallet item : String) : Option (Except MetadataError Hash) :=
  (c.find? (fun kv => kv.1.1 == pallet && kv.1.2 == item)).map Prod.snd

/-- Modelled from the spec: HashCache::get_or_insert (see HashCache above).
The compute closure runs inside PanicM, as its Rust counterpart may panic. -/
def HashCache.get_or_insert (c : HashCache) (pallet item : String)
    (f : Unit → PanicM (Except MetadataError Hash)) :
    PanicM (Except MetadataError Hash × HashCache) :=
  match lookupCache c pallet item with
  | some r => .ok (r, c)
  | none => do
      let r ← f ()
      .ok (r, ((pallet, item), r) :: c)

instance exceptDecEq {ε α : Type} [DecidableEq ε] [DecidableEq α] : DecidableEq (Except ε α)
  | .ok a, .ok b =>
    if h : a = b then isTrue (by rw [h]) else isFalse (by intro he; cases he; exact h rfl)
  | .ok _, .error _ => isFalse (by intro h; cases h)
  | .error _, .ok _ => isFalse (by intro h; cases h)
  | .error a, .error b =>
    if h : a = b then isTrue (by rw [h]) else isFalse (by intro he; cases he; exact h rfl)

/-- metadata_type::InvalidMetadataError (source variant InvalidPrefix is
`invalidMagic` here). -/
inductive InvalidMetadataError where
  | invalidMagic
  | invalidVersion
  | missingType (id : Nat)
  | typeDefNotVariant (id : Nat)
deriving DecidableEq

/-- metadata_type::Metadata (the inner struct; the Arc wrapper adds sharing,
not state). -/
structure Metadata where
  metadata : RuntimeMetadataV14
  events : EventsMap
  cached_storage_hashes : HashCache
deriving DecidableEq

/-- Metadata::event. -/
def Metadata.event (m : Metadata) (pallet_index event_index : Nat) :
    Except MetadataError EventMetadata :=
  match lookupEvent m.events (pallet_index, event_index) with
  | some e => .ok e
  | none => .error (.eventNotFound pallet_index event_index)

/-- The error mapping of Metadata::storage_hash: NotFound into MetadataError. -/
def metaErrOf : NotFound → MetadataError
  | .pallet => .palletNotFound
  | .item => .storageNotFound

/-- Metadata::storage_hash: cached lookup of a storage entry hash, mapping
NotFound into MetadataError. Returns the (possibly unchanged) Metadata whose
cache absorbed the computation, modelling the interior mutability. -/
def Metadata.storage_hash (m : Metadata) (pallet storage : String) :
    PanicM (Except MetadataError Hash × Metadata) :=
  (HashCache.get_or_insert m.cached_storage_hashes pallet storage
    (fun _ => do
      let r ← get_storage_hash m.metadata pallet storage
      .ok (r.mapError metaErrOf))).map
    (fun rc => (rc.1, { m with cached_storage_hashes := rc.2 }))

/-- The closure of `TryFrom<RuntimeMetadataPrefixed> for Metadata` that resolves
a pallet's event type id to its variant list. -/
def get_type_def_variant (types : Registry) (type_id : Nat) :
    Except InvalidMetadataError (List Variant) :=
  match types.resolve type_id with
  | none => .error (.missingType type_id)
  | some ty =>
    match ty with
    | .variant vars => .ok vars
    | _ => .error (.typeDefNotVariant type_id)

/-- One pallet's contribution to the events map: one insert per variant of its
event type, in variant order. -/
def insertPalletEvents (pname : String) (pidx : Nat) (vars : List Variant)
    (acc : EventsMap) : EventsMap :=
  vars.foldl (fun acc v =>
    insertEvent acc (pidx, v.index)
      { pallet := pname, event := v.name,
        fields := v.fields.map (fun f => (f.name, f.ty)), docs := v.docs }) acc

/-- The pallet loop of `TryFrom<RuntimeMetadataPrefixed> for Metadata`. -/
def buildEvents (types : Registry) : List PalletMetadata → EventsMap →
    Except InvalidMetadataError EventsMap
  | [], acc => .ok acc
  | p :: ps, acc =>
    match p.event with
    | none => buildEvents types ps acc
    | some event_type_id => do
        let vars ← get_type_def_variant types event_type_id
        buildEvents types ps (insertPalletEvents p.name p.index vars acc)

/-- `TryFrom<RuntimeMetadataPrefixed> for Metadata`: validate the magic prefix,
require version V14, and index every pallet's event variants. -/
def Metadata.try_from (metadata : RuntimeMetadataPrefixed) :
    Except InvalidMetadataError Metadata :=
  if metadata.magic ≠ META_RESERVED then .error .invalidMagic
  else
    match metadata.meta with
    | .otherVersion _ => .error .invalidVersion
    | .v14 m => do
        let events ← buildEvents m.types m.pallets []
        .ok { metadata := m, events := events, cached_storage_hashes := [] }

/-! ### Section 6: error.rs, rpc.rs and online_client.rs -/

/-- error::Error, payloads of foreign error types carried as text (source
variant Metadata is `metadataLookup` here to avoid clashing with the Metadata
type). -/
inductive Error where
  | codec (msg : String)
  | rpc (msg : String)
  | serialization (msg : String)
  | invalid (msg : String)
  | invalidMetadata (e : InvalidMetadataError)
  | metadataLookup (e : MetadataError)
  | decodeValue (msg : String)
  | encodeValue (msg : String)
  | other (msg : String)
deriving DecidableEq

/-- The serde_json data model, to the extent RuntimeVersion's wire shape needs:
numbers here are the non-negative integrals appearing in that shape. -/
inductive Json where
  | null
  | bool (b : Bool)
  | num (n : Nat)
  | str (s : String)
  | arr (xs : List Json)
  | obj (fields : List (String × Json))

/-- rpc::RuntimeVersion: spec_version, transaction_version, and the flattened
open map of the remaining fields (a HashMap in the source; carried here as the
key-value list in document order, the iteration order being unspecified). -/
structure RuntimeVersion where
  spec_version : Nat
  transaction_version : Nat
  other : List (String × Json)

/-- online_client::OnlineClient's inner cell: the RuntimeVersion/Metadata pair
(the RwLock adds sharing, not state; the Rpc handle carries no state the
claims read). -/
structure OnlineClient where
  runtime_version : RuntimeVersion
  metadata : Metadata

/-- OnlineClient::from_rpc_client: join the two fetches, then build the client
from both results, the runtime_version result unwrapped first (Rust struct
literal field order); either error aborts construction. -/
def OnlineClient.from_rpc_client (runtime_version : Except Error RuntimeVersion)
    (metadata : Except Error Metadata) : Except Error OnlineClient := do
  let rv ← runtime_version
  let md ← metadata
  .ok { runtime_version := rv, metadata := md }

def lookupJsonField (fields : List (String × Json)) (k : String) : Option Json :=
  (fields.find? (fun kv => kv.1 == k)).map Prod.snd

/-- A JSON number read as a u32, as serde does for the two version fields. -/
def asU32 : Json → Option Nat
  | .num n => if n < 4294967296 then some n else none
  | _ => none

/-- Deserialize for RuntimeVersion, per its serde derive: rename_all camelCase
maps the fields to specVersion/transactionVersion, and serde(flatten) collects
every remaining field into `other`. -/
def runtimeVersionFromJson (j : Json) : Option RuntimeVersion :=
  match j with
  | .obj fields =>
    match lookupJsonField fields ("specVersion"), lookupJsonField fields ("transactionVersion") with
    | some sv, some tv =>
      match asU32 sv, asU32 tv with
      | some svn, some tvn =>
        some { spec_version := svn, transaction_version := tvn,
               other := fields.filter (fun kv => kv.1 != "specVersion" && kv.1 != "transactionVersion") }
      | _, _ => none
    | _, _ => none
  | _ => none

/-- Comma-separated rendering of a list, one layer of a depth-indexed
JSON renderer, delegating to `ren` for the elements. -/
def renderJsonList (ren : Json → String) : List Json → String
  | [] => ""
  | [x] => ren x
  | x :: xs => ren x ++ "," ++ renderJsonList ren xs

def renderJsonObj (ren : Json → String) : List (String × Json) → String
  | [] => ""
  | [kv] => "\"" ++ kv.1 ++ "\":" ++ ren kv.2
  | kv :: kvs => "\"" ++ kv.1 ++ "\":" ++ ren kv.2 ++ "," ++ renderJsonObj ren kvs

/-- Compact JSON rendering of the serde_json data model, structurally recursive
on a depth budget (ample for every value in scope). -/
def renderJsonDepth : Nat → Json → String
  | 0, _ => ""
  | d + 1, j =>
    match j with
    | .null => "null"
    | .bool true => "true"
    | .bool false => "false"
    | .num n => Nat.repr n
    | .str s => "\"" ++ s ++ "\""
    | .arr xs => "[" ++ renderJsonList (renderJsonDepth d) xs ++ "]"
    | .obj fs => "\x7b" ++ renderJsonObj (renderJsonDepth d) fs ++ "\x7d"

/-- Compact JSON rendering (the depth budget is ample for every value in scope). -/
def renderJson (j : Json) : String := renderJsonDepth 1000 j

def renderOtherFields (other : List (String × Json)) : List String → String
  | [] => ""
  | k :: ks =>
    (match lookupJsonField other k with
     | some v => ",\"" ++ k ++ "\":" ++ renderJson v
     | none => "") ++ renderOtherFields other ks

/-- Modelled from the spec: the source derives no Serialize for RuntimeVersion,
so this follows the spec's wire shape for what a serde-style serializer would
emit: specVersion, transactionVersion, then the flattened extra fields in the
given map iteration order (a Rust HashMap iterates in unspecified order). -/
def runtimeVersionToJsonText (rv : RuntimeVersion) (order : List String) : String :=
  "\x7b\"specVersion\":" ++ Nat.repr rv.spec_version ++
  ",\"transactionVersion\":" ++ Nat.repr rv.transaction_version ++
  renderOtherFields rv.other order ++ "\x7d"

/-! ### Section 7: notions appearing in the claim statements -/

/-- The type ids a type definition refers to directly. -/
def TypeDef.mentionedIds : TypeDef → List Nat
  | .composite fs => fs.map Field.ty
  | .variant vs => (vs.map (fun v => v.fields.map Field.ty)).flatten
  | .sequence t => [t]
  | .array _ t => [t]
  | .tuple ids => ids
  | .primitive _ => []
  | .compact t => [t]
  | .bitSequence a b => [a, b]

/-- A registry is closed when every type id mentioned inside it resolves; every
id reachable from a resolvable id then resolves. -/
def RegistryClosed (r : Registry) : Prop :=
  ∀ p ∈ r.types, ∀ i ∈ p.2.mentionedIds, r.resolve i ≠ none

/-- The distinct type ids a registry maps. -/
def domIds (r : Registry) : List Nat := (r.types.map Prod.fst).dedup

/-- How many registry ids a visited set has not yet seen; the recursion depth
measure of get_type_hash. -/
def freeIds (r : Registry) (visited : List Nat) : Nat :=
  (domIds r).countP (fun i => !(visited.contains i))

/-- The hash component of a type-hash result, when it returned one. -/
def hashOut (res : PanicM (Hash × List Nat)) : Option Hash :=
  match res with
  | .ok (h, _) => some h
  | .error _ => none

/-- Rename the type id a field refers to, keeping its name. -/
def mapField (φ : Nat → Nat) (f : Field) : Field := { f with ty := φ f.ty }

/-- Rename the type ids a variant's fields refer to, keeping names, index, docs. -/
def mapVariant (φ : Nat → Nat) (v : Variant) : Variant :=
  { v with fields := v.fields.map (mapField φ) }

/-- Rename every type id in a type definition: the claim C3 notion of two
registries describing structurally identical type graphs differing only in
their numeric ids. -/
def mapTypeDef (φ : Nat → Nat) : TypeDef → TypeDef
  | .composite fs => .composite (fs.map (mapField φ))
  | .variant vs => .variant (vs.map (mapVariant φ))
  | .sequence t => .sequence (φ t)
  | .array n t => .array n (φ t)
  | .tuple ids => .tuple (ids.map φ)
  | .primitive p => .primitive p
  | .compact t => .compact (φ t)
  | .bitSequence a b => .bitSequence (φ a) (φ b)

/-- Transport a type-hash result along a renaming of type ids: the hash part is
untouched, visited ids and unresolved-id panics are renamed. -/
def mapRes (φ : Nat → Nat) : PanicM (Hash × List Nat) → PanicM (Hash × List Nat)
  | .ok (h, v) => .ok (h, v.map φ)
  | .error (.unresolvedType i) => .error (.unresolvedType (φ i))
  | .error .fuelExhausted => .error .fuelExhausted

/-- Result refinement along growing fuel: a computation either ran out of fuel
or already returned its final answer. -/
def resLe {α : Type} (a b : PanicM α) : Prop :=
  a = Except.error Panic.fuelExhausted ∨ b = a

/-- Pointwise totality of a recursive type-hash call above a base visited set:
on ids that are visited or resolvable it succeeds and only grows the set. -/
def RecurTotal (r : Registry) (base : List Nat)
    (recur : Nat → List Nat → PanicM (Hash × List Nat)) : Prop :=
  ∀ id v, base ⊆ v → (id ∈ v ∨ r.resolve id ≠ none) →
    ∃ h v', recur id v = .ok (h, v') ∧ v ⊆ v'

/-- Pointwise fuel-refinement of two recursive type-hash calls. -/
def RecurLe (f g : Nat → List Nat → PanicM (Hash × List Nat)) : Prop :=
  ∀ id v, resLe (f id v) (g id v)

/-- Pointwise lockstep of two recursive type-hash calls along an id renaming. -/
def RecurMap (φ : Nat → Nat) (f g : Nat → List Nat → PanicM (Hash × List Nat)) : Prop :=
  ∀ id v, g (φ id) (v.map φ) = mapRes φ (f id v)

/-- Pointwise 32-byte-ness of a recursive type-hash call's hash outputs. -/
def RecurLen (recur : Nat → List Nat → PanicM (Hash × List Nat)) : Prop :=
  ∀ id v h v', recur id v = .ok (h, v') → h.length = 32

/-- The event type ids declared by the pallets of a metadata value. -/
def eventTypeIds (m : RuntimeMetadataV14) : List Nat :=
  m.pallets.filterMap PalletMetadata.event

def TypeDef.isVariantDef : TypeDef → Bool
  | .variant _ => true
  | _ => false

/-- Every pallet's event type id resolves to a variant definition: the
hypothesis of the parse-success claim. -/
def EventsResolvable (m : RuntimeMetadataV14) : Prop :=
  ∀ p ∈ m.pallets, ∀ tid, p.event = some tid →
    ∃ vars, m.types.resolve tid = some (.variant vars)

/-- The event-map entry one variant of a pallet's event type produces. -/
def variantEntry (pname : String) (pidx : Nat) (v : Variant) : (Nat × Nat) × EventMetadata :=
  ((pidx, v.index),
   { pallet := pname, event := v.name,
     fields := v.fields.map (fun f => (f.name, f.ty)), docs := v.docs })

/-- The event-map entries one pallet declares, in variant order. -/
def palletEventEntries (types : Registry) (p : PalletMetadata) :
    List ((Nat × Nat) × EventMetadata) :=
  match p.event with
  | none => []
  | some tid =>
    match types.resolve tid with
    | some (.variant vars) => vars.map (variantEntry p.name p.index)
    | _ => []

/-- The event-map entries a pallet list declares, in declaration order. -/
def declEntries (types : Registry) (ps : List PalletMetadata) :
    List ((Nat × Nat) × EventMetadata) :=
  (ps.map (palletEventEntries types)).flatten

/-- The (pallet index, variant index) keys a metadata value declares. -/
def declaredPairs (m : RuntimeMetadataV14) : List (Nat × Nat) :=
  (declEntries m.types m.pallets).map Prod.fst

/-- The type ids a storage entry refers to directly. -/
def StorageEntryType.entryIds : StorageEntryType → List Nat
  | .plain t => [t]
  | .map _ k v => [k, v]

/-- Every storage entry's type ids resolve: with a closed registry, the
hypothesis under which storage hashing cannot panic. -/
def StorageIdsResolvable (m : RuntimeMetadataV14) : Prop :=
  ∀ p ∈ m.pallets, ∀ st, p.storage = some st → ∀ e ∈ st.entries,
    ∀ i ∈ e.ty.entryIds, m.types.resolve i ≠ none

/-- The name, modifier and default-value contribution to a storage-entry hash. -/
def storageBaseBytes (en : StorageEntryMetadata) : Hash :=
  xorBytes (xorBytes (hash (strBytes en.name)) (hash [en.modifier.toByte])) (hash en.default)

/-- The hasher-discriminant contribution to a keyed storage-entry hash:
an order-sensitive hash_hashes fold. -/
def hashersFold (hashers : List StorageHasher) (b : Hash) : Hash :=
  hashers.foldl (fun b hr => hash_hashes b (List.replicate 32 hr.toByte)) b

/-- A freshly parsed Metadata around a V14 payload: empty events are irrelevant
to storage hashing; the cache starts empty as in try_from. -/
def freshMetadata (m : RuntimeMetadataV14) : Metadata :=
  { metadata := m, events := [], cached_storage_hashes := [] }

/-! ### Section 8: concrete inputs for witnesses and counterexamples -/

/-- A registry declaring two structurally identical u32 types and two
structurally identical u64 types at distinct ids. -/
def regKV : Registry :=
  ⟨[(0, .primitive .u32), (1, .primitive .u32), (2, .primitive .u64), (3, .primitive .u64)]⟩

/-- A keyed storage entry whose key and value are the two u32 types. -/
def entryKV32 : StorageEntryMetadata :=
  { name := "E", modifier := .optional, ty := .map [] 0 1, default := [], docs := [] }

/-- The same storage entry except key and value are the two u64 types. -/
def entryKV64 : StorageEntryMetadata :=
  { name := "E", modifier := .optional, ty := .map [] 2 3, default := [], docs := [] }

/-- Two pallets sharing pallet index 0, each with a one-variant event type at
variant index 0. -/
def regDup : Registry :=
  ⟨[(0, .variant [⟨"EvA", [], 0, []⟩]), (1, .variant [⟨"EvB", [], 0, []⟩])]⟩

def palletA : PalletMetadata :=
  { name := "A", index := 0, calls := none, storage := none, constants := [],
    event := some 0, error := none }

def palletB : PalletMetadata :=
  { name := "B", index := 0, calls := none, storage := none, constants := [],
    event := some 1, error := none }

def m14dup : RuntimeMetadataV14 := ⟨regDup, [palletA, palletB], ⟨0, 0⟩, 0⟩

def pmDup : RuntimeMetadataPrefixed := ⟨META_RESERVED, .v14 m14dup⟩

/-- A pallet with a Plain storage entry whose type id 5 does not resolve in the
(empty) registry. -/
def palletUnres : PalletMetadata :=
  { name := "P", index := 0, calls := none,
    storage := some ⟨"P", [⟨"S", .optional, .plain 5, [], []⟩]⟩,
    constants := [], event := none, error := none }

def m14unres : RuntimeMetadataV14 := ⟨⟨[]⟩, [palletUnres], ⟨0, 0⟩, 0⟩

/-- A pallet with a Map storage entry whose key type id 9 does not resolve. -/
def palletUnresMap : PalletMetadata :=
  { name := "Q", index := 0, calls := none,
    storage := some ⟨"Q", [⟨"T", .optional, .map [.twox64Concat] 9 0, [], []⟩]⟩,
    constants := [], event := none, error := none }

def m14unresMap : RuntimeMetadataV14 :=
  ⟨⟨[(0, .primitive .u32)]⟩, [palletUnresMap], ⟨0, 0⟩, 0⟩

/-- The spec's storage scenario: the Account entry (Plain, u32, default [0]). -/
def accountEntry : StorageEntryMetadata := ⟨"Account", .optional, .plain 0, [0], []⟩

def stSystem : PalletStorageMetadata := ⟨"System", [accountEntry]⟩

/-- The spec's storage scenario: one pallet System (index 0) with storage entry
Account (Plain, u32). -/
def palletSystem : PalletMetadata :=
  { name := "System", index := 0, calls := none,
    storage := some stSystem,
    constants := [], event := none, error := none }

def m14System : RuntimeMetadataV14 := ⟨⟨[(0, .primitive .u32)]⟩, [palletSystem], ⟨0, 0⟩, 0⟩

/-- A self-referential registry: type 0 is a sequence of itself. -/
def regSelf : Registry := ⟨[(0, .sequence 0)]⟩

/-- Witness registry for type-hash determinism: a u8 at id 0. -/
def regIso1 : Registry := ⟨[(0, .primitive .u8)]⟩

/-- The same type graph with the id renamed to 3. -/
def regIso2 : Registry := ⟨[(3, .primitive .u8)]⟩

/-- The renaming between regIso1 and regIso2: swap 0 and 3. -/
def swap03 (n : Nat) : Nat := if n = 0 then 3 else if n = 3 then 0 else n

/-- A pallet whose event type id 7 is missing from the (empty) registry. -/
def palletMissingEv : PalletMetadata :=
  { name := "M", index := 0, calls := none, storage := none, constants := [],
    event := some 7, error := none }

def m14missingEv : RuntimeMetadataV14 := ⟨⟨[]⟩, [palletMissingEv], ⟨0, 0⟩, 0⟩

/-- A one-variant event type for the event-lookup witness. -/
def variantE0 : Variant := ⟨"E0", [⟨some "a", 0⟩], 0, ["d"]⟩

def regEvt : Registry := ⟨[(0, .primitive .u32), (1, .variant [variantE0])]⟩

def palletEvt : PalletMetadata :=
  { name := "Sys", index := 0, calls := none, storage := none, constants := [],
    event := some 1, error := none }

def m14evt : RuntimeMetadataV14 := ⟨regEvt, [palletEvt], ⟨0, 0⟩, 0⟩

/-- A compute closure for the cache witness, returning a fixed hash. -/
def cacheF : Unit → PanicM (Except MetadataError Hash) := fun _ => .ok (.ok (hash [0]))

/-- A different compute closure, returning an error instead. -/
def cacheG : Unit → PanicM (Except MetadataError Hash) := fun _ => .ok (.error .palletNotFound)

/-- The RuntimeVersion JSON scenario input, as a serde_json value. -/
def inputJson : Json :=
  .obj [("specVersion", .num 123), ("transactionVersion", .num 456),
        ("foo", .bool true), ("wibble", .arr [.num 1, .num 2, .num 3])]

/-- The RuntimeVersion JSON scenario input, as its compact JSON text. -/
def inputText : String :=
  "\x7b\"specVersion\":123,\"transactionVersion\":456,\"foo\":true,\"wibble\":[1,2,3]\x7d"

/-- The RuntimeVersion value the scenario deserializes to. -/
def rvExpected : RuntimeVersion :=
  { spec_version := 123, transaction_version := 456,
    other := [("foo", .bool true), ("wibble", .arr [.num 1, .num 2, .num 3])] }

/-! ### Section 9: basic lemmas on bytes, membership and the recursion measure -/

theorem except_bind_error_eq {ε α β : Type} (e : ε) (k : α → Except ε β) :
    ((Except.error e : Except ε α) >>= k) = Except.error e := rfl

theorem except_bind_ok_eq {ε α β : Type} (x : α) (k : α → Except ε β) :
    ((Except.ok x : Except ε α) >>= k) = k x := rfl

theorem contains_true_iff (l : List Nat) (a : Nat) : l.contains a = true ↔ a ∈ l := by
  simp [List.elem_iff]

theorem contains_false_iff (l : List Nat) (a : Nat) : l.contains a = false ↔ a ∉ l := by
  rw [← contains_true_iff]
  cases l.contains a <;> simp

theorem freeIds_mono (r : Registry) {v v' : List Nat} (h : v ⊆ v') :
    freeIds r v' ≤ freeIds r v := by
  apply List.countP_mono_left
  intro a _ ha
  simp only [Bool.not_eq_true'] at ha ⊢
  rw [contains_false_iff] at ha ⊢
  exact fun hm => ha (h hm)

theorem countP_lt_of_witness {l : List Nat} {p q : Nat → Bool}
    (himp : ∀ a ∈ l, p a = true → q a = true) (x : Nat) (hx : x ∈ l)
    (hpx : p x = false) (hqx : q x = true) : l.countP p < l.countP q := by
  induction l with
  | nil => cases hx
  | cons a t ih =>
    rw [List.countP_cons, List.countP_cons]
    have himpt : ∀ b ∈ t, p b = true → q b = true :=
      fun b hb => himp b (List.mem_cons_of_mem _ hb)
    rcases List.mem_cons.mp hx with rfl | hxt
    · have hle := List.countP_mono_left himpt
      simp only [hpx, hqx, if_true, if_false, Bool.false_eq_true]
      omega
    · have hlt := ih himpt hxt
      have hif : (if p a = true then 1 else 0) ≤ (if q a = true then 1 else 0) := by
        by_cases hpa : p a = true
        · simp [hpa, himp a (List.mem_cons_self a t) hpa]
        · simp [hpa]
      omega

theorem freeIds_insert_lt (r : Registry) {id : Nat} {v : List Nat}
    (hdom : id ∈ domIds r) (hv : id ∉ v) : freeIds r (id :: v) < freeIds r v := by
  apply countP_lt_of_witness _ id hdom
  · simp only [Bool.not_eq_false']
    rw [contains_true_iff]
    exact List.mem_cons_self id v
  · simp only [Bool.not_eq_true']
    rw [contains_false_iff]
    exact hv
  · intro a _ ha
    simp only [Bool.not_eq_true'] at ha ⊢
    rw [contains_false_iff] at ha ⊢
    exact fun hm => ha (List.mem_cons_of_mem _ hm)

theorem resolve_pair_mem {r : Registry} {id : Nat} {td : TypeDef}
    (h : r.resolve id = some td) : (id, td) ∈ r.types := by
  unfold Registry.resolve at h
  cases hf : r.types.find? (fun p => p.1 == id) with
  | none => rw [hf] at h; cases h
  | some p =>
    rw [hf] at h
    have hp1 : p.1 = id := by have := List.find?_some hf; simpa using this
    have hp2 : p.2 = td := by simpa using h
    have hm := List.mem_of_find?_eq_some hf
    have hp : p = (id, td) := by
      cases p
      simp only [Prod.mk.injEq]
      exact ⟨hp1, hp2⟩
    rwa [hp] at hm

theorem mem_domIds_of_resolve {r : Registry} {id : Nat} {td : TypeDef}
    (h : r.resolve id = some td) : id ∈ domIds r := by
  have hm := resolve_pair_mem h
  unfold domIds
  rw [List.mem_dedup]
  exact List.mem_map.mpr ⟨(id, td), hm, rfl⟩

/-! ### Section 10: fuel monotonicity of the type-hash engine -/

theorem resLe_refl {α : Type} (a : PanicM α) : resLe a a := Or.inr rfl

theorem get_field_hash_le {f g : Nat → List Nat → PanicM (Hash × List Nat)}
    (hfg : RecurLe f g) (fl : Field) (v : List Nat) :
    resLe (get_field_hash f fl v) (get_field_hash g fl v) := by
  rcases hfg fl.ty v with hfe | heq
  · left
    simp [get_field_hash, hfe, except_bind_error_eq]
  · right
    simp [get_field_hash, heq]

theorem hash_fields_le {f g : Nat → List Nat → PanicM (Hash × List Nat)}
    (hfg : RecurLe f g) :
    ∀ (fs : List Field) (acc : Hash) (v : List Nat),
    resLe (hash_fields f fs acc v) (hash_fields g fs acc v) := by
  intro fs
  induction fs with
  | nil => intro acc v; exact resLe_refl _
  | cons fl fs ih =>
    intro acc v
    rcases get_field_hash_le hfg fl v with hfe | heq
    · left
      simp [hash_fields, hfe, except_bind_error_eq]
    · cases hf : get_field_hash f fl v with
      | error e =>
        rw [hf] at heq
        right
        simp [hash_fields, hf, heq, except_bind_error_eq]
      | ok pr =>
        rw [hf] at heq
        obtain ⟨h1, v1⟩ := pr
        have hih := ih (hash_hashes acc h1) v1
        rcases hih with hfe2 | heq2
        · left
          simp [hash_fields, hf, except_bind_ok_eq, hfe2]
        · right
          simp [hash_fields, hf, heq, except_bind_ok_eq, heq2]

theorem get_variant_hash_le {f g : Nat → List Nat → PanicM (Hash × List Nat)}
    (hfg : RecurLe f g) (var : Variant) (v : List Nat) :
    resLe (get_variant_hash f var v) (get_variant_hash g var v) :=
  hash_fields_le hfg var.fields (hash (strBytes var.name)) v

theorem hash_variants_le {f g : Nat → List Nat → PanicM (Hash × List Nat)}
    (hfg : RecurLe f g) :
    ∀ (vs : List Variant) (acc : Hash) (v : List Nat),
    resLe (hash_variants f vs acc v) (hash_variants g vs acc v) := by
  intro vs
  induction vs with
  | nil => intro acc v; exact resLe_refl _
  | cons var vs ih =>
    intro acc v
    rcases get_variant_hash_le hfg var v with hfe | heq
    · left
      simp [hash_variants, hfe, except_bind_error_eq]
    · cases hf : get_variant_hash f var v with
      | error e =>
        rw [hf] at heq
        right
        simp [hash_variants, hf, heq, except_bind_error_eq]
      | ok pr =>
        rw [hf] at heq
        obtain ⟨h1, v1⟩ := pr
        rcases ih (hash_hashes acc h1) v1 with hfe2 | heq2
        · left
          simp [hash_variants, hf, except_bind_ok_eq, hfe2]
        · right
          simp [hash_variants, hf, heq, except_bind_ok_eq, heq2]

theorem hash_tuple_le {f g : Nat → List Nat → PanicM (Hash × List Nat)}
    (hfg : RecurLe f g) :
    ∀ (ts : List Nat) (acc : Hash) (v : List Nat),
    resLe (hash_tuple f ts acc v) (hash_tuple g ts acc v) := by
  intro ts
  induction ts with
  | nil => intro acc v; exact resLe_refl _
  | cons t ts ih =>
    intro acc v
    rcases hfg t v with hfe | heq
    · left
      simp [hash_tuple, hfe, except_bind_error_eq]
    · cases hf : f t v with
      | error e =>
        rw [hf] at heq
        right
        simp [hash_tuple, hf, heq, except_bind_error_eq]
      | ok pr =>
        rw [hf] at heq
        obtain ⟨h1, v1⟩ := pr
        rcases ih (hash_hashes acc h1) v1 with hfe2 | heq2
        · left
          simp [hash_tuple, hf, except_bind_ok_eq, hfe2]
        · right
          simp [hash_tuple, hf, heq, except_bind_ok_eq, heq2]

theorem get_type_def_hash_le {f g : Nat → List Nat → PanicM (Hash × List Nat)}
    (hfg : RecurLe f g) (td : TypeDef) (v : List Nat) :
    resLe (get_type_def_hash f td v) (get_type_def_hash g td v) := by
  cases td with
  | composite fs => exact hash_fields_le hfg fs _ v
  | variant vs => exact hash_variants_le hfg vs _ v
  | tuple ids => exact hash_tuple_le hfg ids _ v
  | primitive p => exact resLe_refl _
  | sequence tp =>
    rcases hfg tp v with hfe | heq
    · left
      simp [get_type_def_hash, hfe, except_bind_error_eq]
    · right
      simp [get_type_def_hash, heq]
  | array n tp =>
    rcases hfg tp v with hfe | heq
    · left
      simp [get_type_def_hash, hfe, except_bind_error_eq]
    · right
      simp [get_type_def_hash, heq]
  | compact tp =>
    rcases hfg tp v with hfe | heq
    · left
      simp [get_type_def_hash, hfe, except_bind_error_eq]
    · right
      simp [get_type_def_hash, heq]
  | bitSequence a b =>
    rcases hfg a v with hfe | heq
    · left
      simp [get_type_def_hash, hfe, except_bind_error_eq]
    · cases hf : f a v with
      | error e =>
        rw [hf] at heq
        right
        simp [get_type_def_hash, hf, heq, except_bind_error_eq]
      | ok pr =>
        rw [hf] at heq
        obtain ⟨h1, v1⟩ := pr
        rcases hfg b v1 with hfe2 | heq2
        · left
          simp [get_type_def_hash, hf, except_bind_ok_eq, hfe2, except_bind_error_eq]
        · cases hf2 : f b v1 with
          | error e2 =>
            rw [hf2] at heq2
            right
            simp [get_type_def_hash, hf, heq, hf2, heq2, except_bind_ok_eq, except_bind_error_eq]
          | ok pr2 =>
            rw [hf2] at heq2
            right
            simp [get_type_def_hash, hf, heq, hf2, heq2, except_bind_ok_eq]

theorem get_type_hash_le (r : Registry) :
    ∀ f1 f2 : Nat, f1 ≤ f2 → ∀ (id : Nat) (v : List Nat),
    resLe (get_type_hash r f1 id v) (get_type_hash r f2 id v) := by
  intro f1
  induction f1 with
  | zero =>
    intro f2 _ id v
    left
    simp [get_type_hash]
  | succ n ih =>
    intro f2 hle id v
    obtain ⟨m, rfl⟩ : ∃ m, f2 = m + 1 := ⟨f2 - 1, by omega⟩
    by_cases hc : id ∈ v
    · right
      simp [get_type_hash, hc]
    · cases hr : r.resolve id with
      | none =>
        right
        simp [get_type_hash, hc, hr]
      | some td =>
        have hstep := @get_type_def_hash_le (get_type_hash r n) (get_type_hash r m)
          (fun i w => ih m (by omega) i w) td (id :: v)
        rcases hstep with hfe | heq
        · left
          simp [get_type_hash, hc, hr, hfe]
        · right
          simp [get_type_hash, hc, hr, heq]

/-! ### Section 11: totality of the type-hash engine under closure, with fuel
bounded by the number of distinct registry ids -/

theorem get_field_hash_total {r : Registry} {base : List Nat}
    {recur : Nat → List Nat → PanicM (Hash × List Nat)} (hrec : RecurTotal r base recur)
    (fl : Field) (v : List Nat) (hb : base ⊆ v) (hres : r.resolve fl.ty ≠ none) :
    ∃ h v', get_field_hash recur fl v = .ok (h, v') ∧ v ⊆ v' := by
  obtain ⟨h, v', heq, hsub⟩ := hrec fl.ty v hb (Or.inr hres)
  cases hn : fl.name with
  | some n =>
    exact ⟨xorBytes h (hash (strBytes n)), v',
      by simp [get_field_hash, heq, hn, except_bind_ok_eq], hsub⟩
  | none => exact ⟨h, v', by simp [get_field_hash, heq, hn, except_bind_ok_eq], hsub⟩

theorem hash_fields_total {r : Registry} {base : List Nat}
    {recur : Nat → List Nat → PanicM (Hash × List Nat)} (hrec : RecurTotal r base recur) :
    ∀ (fs : List Field) (acc : Hash) (v : List Nat), base ⊆ v →
    (∀ fl ∈ fs, r.resolve fl.ty ≠ none) →
    ∃ h v', hash_fields recur fs acc v = .ok (h, v') ∧ v ⊆ v' := by
  intro fs
  induction fs with
  | nil =>
    intro acc v hb _
    exact ⟨acc, v, rfl, fun x hx => hx⟩
  | cons fl fs ih =>
    intro acc v hb hall
    obtain ⟨h1, v1, he1, hs1⟩ := get_field_hash_total hrec fl v hb (hall fl (by simp))
    obtain ⟨h2, v2, he2, hs2⟩ := ih (hash_hashes acc h1) v1 (hb.trans hs1)
      (fun x hx => hall x (List.mem_cons_of_mem _ hx))
    exact ⟨h2, v2, by simp [hash_fields, he1, he2, except_bind_ok_eq], hs1.trans hs2⟩

theorem get_variant_hash_total {r : Registry} {base : List Nat}
    {recur : Nat → List Nat → PanicM (Hash × List Nat)} (hrec : RecurTotal r base recur)
    (var : Variant) (v : List Nat) (hb : base ⊆ v)
    (hall : ∀ fl ∈ var.fields, r.resolve fl.ty ≠ none) :
    ∃ h v', get_variant_hash recur var v = .ok (h, v') ∧ v ⊆ v' :=
  hash_fields_total hrec var.fields (hash (strBytes var.name)) v hb hall

theorem hash_variants_total {r : Registry} {base : List Nat}
    {recur : Nat → List Nat → PanicM (Hash × List Nat)} (hrec : RecurTotal r base recur) :
    ∀ (vs : List Variant) (acc : Hash) (v : List Nat), base ⊆ v →
    (∀ var ∈ vs, ∀ fl ∈ var.fields, r.resolve fl.ty ≠ none) →
    ∃ h v', hash_variants recur vs acc v = .ok (h, v') ∧ v ⊆ v' := by
  intro vs
  induction vs with
  | nil =>
    intro acc v hb _
    exact ⟨acc, v, rfl, fun x hx => hx⟩
  | cons var vs ih =>
    intro acc v hb hall
    obtain ⟨h1, v1, he1, hs1⟩ := get_variant_hash_total hrec var v hb (hall var (by simp))
    obtain ⟨h2, v2, he2, hs2⟩ := ih (hash_hashes acc h1) v1 (hb.trans hs1)
      (fun x hx => hall x (List.mem_cons_of_mem _ hx))
    exact ⟨h2, v2, by simp [hash_variants, he1, he2, except_bind_ok_eq], hs1.trans hs2⟩

theorem hash_tuple_total {r : Registry} {base : List Nat}
    {recur : Nat → List Nat → PanicM (Hash × List Nat)} (hrec : RecurTotal r base recur) :
    ∀ (ts : List Nat) (acc : Hash) (v : List Nat), base ⊆ v →
    (∀ t ∈ ts, r.resolve t ≠ none) →
    ∃ h v', hash_tuple recur ts acc v = .ok (h, v') ∧ v ⊆ v' := by
  intro ts
  induction ts with
  | nil =>
    intro acc v hb _
    exact ⟨acc, v, rfl, fun x hx => hx⟩
  | cons t ts ih =>
    intro acc v hb hall
    obtain ⟨h1, v1, he1, hs1⟩ := hrec t v hb (Or.inr (hall t (by simp)))
    obtain ⟨h2, v2, he2, hs2⟩ := ih (hash_hashes acc h1) v1 (hb.trans hs1)
      (fun x hx => hall x (List.mem_cons_of_mem _ hx))
    exact ⟨h2, v2, by simp [hash_tuple, he1, he2, except_bind_ok_eq], hs1.trans hs2⟩

theorem get_type_def_hash_total {r : Registry} {base : List Nat}
    {recur : Nat → List Nat → PanicM (Hash × List Nat)} (hrec : RecurTotal r base recur)
    (td : TypeDef) (v : List Nat) (hb : base ⊆ v)
    (hall : ∀ i ∈ td.mentionedIds, r.resolve i ≠ none) :
    ∃ h v', get_type_def_hash recur td v = .ok (h, v') ∧ v ⊆ v' := by
  cases td with
  | composite fs =>
    exact hash_fields_total hrec fs _ v hb
      (fun fl hfl => hall fl.ty (List.mem_map_of_mem _ hfl))
  | variant vs =>
    refine hash_variants_total hrec vs _ v hb ?_
    intro var hvar fl hfl
    refine hall fl.ty ?_
    simp only [TypeDef.mentionedIds, List.mem_flatten]
    exact ⟨var.fields.map Field.ty, List.mem_map_of_mem _ hvar, List.mem_map_of_mem _ hfl⟩
  | tuple ids =>
    exact hash_tuple_total hrec ids _ v hb (fun t ht => hall t ht)
  | primitive p => exact ⟨_, v, rfl, fun x hx => hx⟩
  | sequence tp =>
    obtain ⟨h, v', heq, hsub⟩ := hrec tp v hb (Or.inr (hall tp (by simp [TypeDef.mentionedIds])))
    exact ⟨xorBytes (hash [2]) h, v', by simp [get_type_def_hash, heq, except_bind_ok_eq], hsub⟩
  | array n tp =>
    obtain ⟨h, v', heq, hsub⟩ := hrec tp v hb (Or.inr (hall tp (by simp [TypeDef.mentionedIds])))
    exact ⟨xorBytes (hash (3 :: be32 n)) h, v',
      by simp [get_type_def_hash, heq, except_bind_ok_eq], hsub⟩
  | compact tp =>
    obtain ⟨h, v', heq, hsub⟩ := hrec tp v hb (Or.inr (hall tp (by simp [TypeDef.mentionedIds])))
    exact ⟨xorBytes (hash [6]) h, v', by simp [get_type_def_hash, heq, except_bind_ok_eq], hsub⟩
  | bitSequence a b =>
    obtain ⟨h1, v1, he1, hs1⟩ := hrec a v hb (Or.inr (hall a (by simp [TypeDef.mentionedIds])))
    obtain ⟨h2, v2, he2, hs2⟩ := hrec b v1 (hb.trans hs1)
      (Or.inr (hall b (by simp [TypeDef.mentionedIds])))
    exact ⟨xorBytes (xorBytes (hash [7]) h1) h2, v2,
      by simp [get_type_def_hash, he1, he2, except_bind_ok_eq], hs1.trans hs2⟩

theorem get_type_hash_total (r : Registry) (hclosed : RegistryClosed r) :
    ∀ (fuel : Nat) (id : Nat) (v : List Nat), freeIds r v < fuel →
    (id ∈ v ∨ r.resolve id ≠ none) →
    ∃ h v', get_type_hash r fuel id v = .ok (h, v') ∧ v ⊆ v' := by
  intro fuel
  induction fuel with
  | zero => intro id v hfree _; omega
  | succ n ih =>
    intro id v hfree hid
    by_cases hc : id ∈ v
    · exact ⟨hash [123], v, by simp [get_type_hash, hc], fun x hx => hx⟩
    · have hnotv : id ∉ v := hc
      have hres : r.resolve id ≠ none := by
        rcases hid with hin | hr
        · exact absurd hin hnotv
        · exact hr
      cases hr : r.resolve id with
      | none => exact absurd hr hres
      | some td =>
        have hdom : id ∈ domIds r := mem_domIds_of_resolve hr
        have hfree2 : freeIds r (id :: v) < n := by
          have := freeIds_insert_lt r hdom hnotv
          omega
        have hrec : RecurTotal r (id :: v) (get_type_hash r n) := by
          intro id2 v2 hb2 hid2
          refine ih id2 v2 ?_ hid2
          have := freeIds_mono r hb2
          omega
        have hall : ∀ i ∈ td.mentionedIds, r.resolve i ≠ none :=
          hclosed (id, td) (resolve_pair_mem hr)
        obtain ⟨h, v', heq, hsub⟩ := get_type_def_hash_total hrec td (id :: v)
          (fun x hx => hx) hall
        refine ⟨h, v', ?_, fun x hx => hsub (List.mem_cons_of_mem _ hx)⟩
        simp [get_type_hash, hc, hr, heq]

/-! ### Section 12: lockstep of the type-hash engine along an id renaming -/

theorem mem_map_inj {φ : Nat → Nat} (hinj : Function.Injective φ) (v : List Nat) (i : Nat) :
    φ i ∈ v.map φ ↔ i ∈ v := by
  constructor
  · intro hm
    obtain ⟨x, hx, he⟩ := List.mem_map.mp hm
    rwa [← hinj he]
  · exact List.mem_map_of_mem φ

theorem get_field_hash_map {φ : Nat → Nat} {f g : Nat → List Nat → PanicM (Hash × List Nat)}
    (hfg : RecurMap φ f g) (fl : Field) (v : List Nat) :
    get_field_hash g (mapField φ fl) (v.map φ) = mapRes φ (get_field_hash f fl v) := by
  have hstep := hfg fl.ty v
  cases hr : f fl.ty v with
  | error e =>
    rw [hr] at hstep
    cases e <;>
      simp [get_field_hash, mapField, hstep, hr, mapRes, except_bind_error_eq]
  | ok pr =>
    obtain ⟨h1, v1⟩ := pr
    rw [hr] at hstep
    cases hn : fl.name <;>
      simp [get_field_hash, mapField, hstep, hr, hn, mapRes, except_bind_ok_eq]

theorem hash_fields_map {φ : Nat → Nat} {f g : Nat → List Nat → PanicM (Hash × List Nat)}
    (hfg : RecurMap φ f g) :
    ∀ (fs : List Field) (acc : Hash) (v : List Nat),
    hash_fields g (fs.map (mapField φ)) acc (v.map φ) = mapRes φ (hash_fields f fs acc v) := by
  intro fs
  induction fs with
  | nil => intro acc v; simp [hash_fields, mapRes]
  | cons fl fs ih =>
    intro acc v
    have hstep := get_field_hash_map hfg fl v
    cases hr : get_field_hash f fl v with
    | error e =>
      rw [hr] at hstep
      cases e <;>
        simp [hash_fields, hstep, hr, mapRes, except_bind_error_eq]
    | ok pr =>
      obtain ⟨h1, v1⟩ := pr
      rw [hr] at hstep
      have hih := ih (hash_hashes acc h1) v1
      simp [hash_fields, hstep, hr, mapRes, except_bind_ok_eq, hih]

theorem get_variant_hash_map {φ : Nat → Nat} {f g : Nat → List Nat → PanicM (Hash × List Nat)}
    (hfg : RecurMap φ f g) (var : Variant) (v : List Nat) :
    get_variant_hash g (mapVariant φ var) (v.map φ) = mapRes φ (get_variant_hash f var v) := by
  have := hash_fields_map hfg var.fields (hash (strBytes var.name)) v
  simpa [get_variant_hash, mapVariant] using this

theorem hash_variants_map {φ : Nat → Nat} {f g : Nat → List Nat → PanicM (Hash × List Nat)}
    (hfg : RecurMap φ f g) :
    ∀ (vs : List Variant) (acc : Hash) (v : List Nat),
    hash_variants g (vs.map (mapVariant φ)) acc (v.map φ) = mapRes φ (hash_variants f vs acc v) := by
  intro vs
  induction vs with
  | nil => intro acc v; simp [hash_variants, mapRes]
  | cons var vs ih =>
    intro acc v
    have hstep := get_variant_hash_map hfg var v
    cases hr : get_variant_hash f var v with
    | error e =>
      rw [hr] at hstep
      cases e <;>
        simp [hash_variants, hstep, hr, mapRes, except_bind_error_eq]
    | ok pr =>
      obtain ⟨h1, v1⟩ := pr
      rw [hr] at hstep
      have hih := ih (hash_hashes acc h1) v1
      simp [hash_variants, hstep, hr, mapRes, except_bind_ok_eq, hih]

theorem hash_tuple_map {φ : Nat → Nat} {f g : Nat → List Nat → PanicM (Hash × List Nat)}
    (hfg : RecurMap φ f g) :
    ∀ (ts : List Nat) (acc : Hash) (v : List Nat),
    hash_tuple g (ts.map φ) acc (v.map φ) = mapRes φ (hash_tuple f ts acc v) := by
  intro ts
  induction ts with
  | nil => intro acc v; simp [hash_tuple, mapRes]
  | cons t ts ih =>
    intro acc v
    have hstep := hfg t v
    cases hr : f t v with
    | error e =>
      rw [hr] at hstep
      cases e <;>
        simp [hash_tuple, hstep, hr, mapRes, except_bind_error_eq]
    | ok pr =>
      obtain ⟨h1, v1⟩ := pr
      rw [hr] at hstep
      have hih := ih (hash_hashes acc h1) v1
      simp [hash_tuple, hstep, hr, mapRes, except_bind_ok_eq, hih]

theorem get_type_def_hash_map {φ : Nat → Nat} {f g : Nat → List Nat → PanicM (Hash × List Nat)}
    (hfg : RecurMap φ f g) (td : TypeDef) (v : List Nat) :
    get_type_def_hash g (mapTypeDef φ td) (v.map φ) = mapRes φ (get_type_def_hash f td v) := by
  cases td with
  | composite fs => exact hash_fields_map hfg fs _ v
  | variant vs => exact hash_variants_map hfg vs _ v
  | tuple ids => exact hash_tuple_map hfg ids _ v
  | primitive p => simp [get_type_def_hash, mapTypeDef, mapRes]
  | sequence tp =>
    have hstep := hfg tp v
    cases hr : f tp v with
    | error e =>
      rw [hr] at hstep
      cases e <;>
        simp [get_type_def_hash, mapTypeDef, hstep, hr, mapRes, except_bind_error_eq]
    | ok pr =>
      obtain ⟨h1, v1⟩ := pr
      rw [hr] at hstep
      simp [get_type_def_hash, mapTypeDef, hstep, hr, mapRes, except_bind_ok_eq]
  | array n tp =>
    have hstep := hfg tp v
    cases hr : f tp v with
    | error e =>
      rw [hr] at hstep
      cases e <;>
        simp [get_type_def_hash, mapTypeDef, hstep, hr, mapRes, except_bind_error_eq]
    | ok pr =>
      obtain ⟨h1, v1⟩ := pr
      rw [hr] at hstep
      simp [get_type_def_hash, mapTypeDef, hstep, hr, mapRes, except_bind_ok_eq]
  | compact tp =>
    have hstep := hfg tp v
    cases hr : f tp v with
    | error e =>
      rw [hr] at hstep
      cases e <;>
        simp [get_type_def_hash, mapTypeDef, hstep, hr, mapRes, except_bind_error_eq]
    | ok pr =>
      obtain ⟨h1, v1⟩ := pr
      rw [hr] at hstep
      simp [get_type_def_hash, mapTypeDef, hstep, hr, mapRes, except_bind_ok_eq]
  | bitSequence a b =>
    have hstep := hfg a v
    cases hr : f a v with
    | error e =>
      rw [hr] at hstep
      cases e <;>
        simp [get_type_def_hash, mapTypeDef, hstep, hr, mapRes, except_bind_error_eq]
    | ok pr =>
      obtain ⟨h1, v1⟩ := pr
      rw [hr] at hstep
      have hstep2 := hfg b v1
      cases hr2 : f b v1 with
      | error e2 =>
        rw [hr2] at hstep2
        cases e2 <;>
          simp [get_type_def_hash, mapTypeDef, hstep, hr, hstep2, hr2, mapRes,
            except_bind_ok_eq, except_bind_error_eq]
      | ok pr2 =>
        obtain ⟨h2, v2⟩ := pr2
        rw [hr2] at hstep2
        simp [get_type_def_hash, mapTypeDef, hstep, hr, hstep2, hr2, mapRes, except_bind_ok_eq]

theorem get_type_hash_map {r1 r2 : Registry} {φ : Nat → Nat}
    (hinj : Function.Injective φ)
    (hiso : ∀ id, r2.resolve (φ id) = Option.map (mapTypeDef φ) (r1.resolve id)) :
    ∀ (fuel : Nat) (id : Nat) (v : List Nat),
    get_type_hash r2 fuel (φ id) (v.map φ) = mapRes φ (get_type_hash r1 fuel id v) := by
  intro fuel
  induction fuel with
  | zero => intro id v; simp [get_type_hash, mapRes]
  | succ n ih =>
    intro id v
    by_cases hc : id ∈ v
    · have hc2 : φ id ∈ v.map φ := (mem_map_inj hinj v id).mpr hc
      simp [get_type_hash, hc, hc2, mapRes]
    · have hc2 : φ id ∉ v.map φ := fun hm => hc ((mem_map_inj hinj v id).mp hm)
      have hres := hiso id
      cases hr : r1.resolve id with
      | none =>
        rw [hr] at hres
        simp [get_type_hash, hc, hc2, hr, hres, mapRes]
      | some td =>
        rw [hr] at hres
        have hrec : RecurMap φ (get_type_hash r1 n) (get_type_hash r2 n) := fun i w => ih i w
        have hstep := get_type_def_hash_map hrec td (id :: v)
        simp only [List.map_cons] at hstep
        simp [get_type_hash, hc, hc2, hr, hres, hstep]

/-! ### Section 13: every hash the engine produces is 32 bytes; xor cancellation -/

theorem hash_len (l : List Nat) : (hash l).length = 32 := rfl

theorem xorBytes_len (a b : Hash) : (xorBytes a b).length = min a.length b.length := by
  simp [xorBytes]

theorem hash_hashes_len (a b : Hash) : (hash_hashes a b).length = 32 := rfl

theorem xorBytes_cancel : ∀ (a b : List Nat), a.length ≤ b.length →
    xorBytes (xorBytes a b) b = a := by
  intro a
  induction a with
  | nil => intro b _; rfl
  | cons x xs ih =>
    intro b hlen
    cases b with
    | nil => simp at hlen
    | cons y ys =>
      simp only [xorBytes, List.zipWith_cons_cons]
      have hx : (x ^^^ y) ^^^ y = x := Nat.xor_cancel_right y x
      have := ih ys (by simpa using hlen)
      simp only [xorBytes] at this
      rw [hx, this]

theorem get_field_hash_len {recur : Nat → List Nat → PanicM (Hash × List Nat)}
    (hlen : RecurLen recur) :
    ∀ (fl : Field) (v : List Nat) (h : Hash) (v' : List Nat),
    get_field_hash recur fl v = .ok (h, v') → h.length = 32 := by
  intro fl v h v' heq
  unfold get_field_hash at heq
  cases hr : recur fl.ty v with
  | error e =>
    rw [hr, except_bind_error_eq] at heq
    cases heq
  | ok pr =>
    obtain ⟨h1, v1⟩ := pr
    rw [hr, except_bind_ok_eq] at heq
    have h1len := hlen fl.ty v h1 v1 hr
    cases hn : fl.name with
    | some n =>
      rw [hn] at heq
      cases heq
      simp [xorBytes_len, h1len, hash_len]
    | none =>
      rw [hn] at heq
      cases heq
      exact h1len

theorem hash_fields_len {recur : Nat → List Nat → PanicM (Hash × List Nat)}
    (_hlen : RecurLen recur) :
    ∀ (fs : List Field) (acc : Hash) (v : List Nat) (h : Hash) (v' : List Nat),
    acc.length = 32 → hash_fields recur fs acc v = .ok (h, v') → h.length = 32 := by
  intro fs
  induction fs with
  | nil =>
    intro acc v h v' hacc heq
    cases heq
    exact hacc
  | cons fl fs ih =>
    intro acc v h v' hacc heq
    rw [hash_fields] at heq
    cases hr : get_field_hash recur fl v with
    | error e =>
      rw [hr, except_bind_error_eq] at heq
      cases heq
    | ok pr =>
      obtain ⟨h1, v1⟩ := pr
      rw [hr, except_bind_ok_eq] at heq
      exact ih (hash_hashes acc h1) v1 h v' (hash_hashes_len _ _) heq

theorem hash_variants_len {recur : Nat → List Nat → PanicM (Hash × List Nat)}
    (_hlen : RecurLen recur) :
    ∀ (vs : List Variant) (acc : Hash) (v : List Nat) (h : Hash) (v' : List Nat),
    acc.length = 32 → hash_variants recur vs acc v = .ok (h, v') → h.length = 32 := by
  intro vs
  induction vs with
  | nil =>
    intro acc v h v' hacc heq
    cases heq
    exact hacc
  | cons var vs ih =>
    intro acc v h v' hacc heq
    rw [hash_variants] at heq
    cases hr : get_variant_hash recur var v with
    | error e =>
      rw [hr, except_bind_error_eq] at heq
      cases heq
    | ok pr =>
      obtain ⟨h1, v1⟩ := pr
      rw [hr, except_bind_ok_eq] at heq
      exact ih (hash_hashes acc h1) v1 h v' (hash_hashes_len _ _) heq

theorem hash_tuple_len {recur : Nat → List Nat → PanicM (Hash × List Nat)}
    (_hlen : RecurLen recur) :
    ∀ (ts : List Nat) (acc : Hash) (v : List Nat) (h : Hash) (v' : List Nat),
    acc.length = 32 → hash_tuple recur ts acc v = .ok (h, v') → h.length = 32 := by
  intro ts
  induction ts with
  | nil =>
    intro acc v h v' hacc heq
    cases heq
    exact hacc
  | cons t ts ih =>
    intro acc v h v' hacc heq
    rw [hash_tuple] at heq
    cases hr : recur t v with
    | error e =>
      rw [hr, except_bind_error_eq] at heq
      cases heq
    | ok pr =>
      obtain ⟨h1, v1⟩ := pr
      rw [hr, except_bind_ok_eq] at heq
      exact ih (hash_hashes acc h1) v1 h v' (hash_hashes_len _ _) heq

theorem get_type_def_hash_len {recur : Nat → List Nat → PanicM (Hash × List Nat)}
    (hlen : RecurLen recur) :
    ∀ (td : TypeDef) (v : List Nat) (h : Hash) (v' : List Nat),
    get_type_def_hash recur td v = .ok (h, v') → h.length = 32 := by
  intro td v h v' heq
  cases td with
  | composite fs => exact hash_fields_len hlen fs _ v h v' (hash_len _) heq
  | variant vs => exact hash_variants_len hlen vs _ v h v' (hash_len _) heq
  | tuple ids => exact hash_tuple_len hlen ids _ v h v' (hash_len _) heq
  | primitive p =>
    cases heq
    exact hash_len _
  | sequence tp =>
    rw [get_type_def_hash] at heq
    cases hr : recur tp v with
    | error e =>
      rw [hr, except_bind_error_eq] at heq
      cases heq
    | ok pr =>
      obtain ⟨h1, v1⟩ := pr
      rw [hr, except_bind_ok_eq] at heq
      cases heq
      simp [xorBytes_len, hash_len, hlen _ _ _ _ hr]
  | array n tp =>
    rw [get_type_def_hash] at heq
    cases hr : recur tp v with
    | error e =>
      rw [hr, except_bind_error_eq] at heq
      cases heq
    | ok pr =>
      obtain ⟨h1, v1⟩ := pr
      rw [hr, except_bind_ok_eq] at heq
      cases heq
      simp [xorBytes_len, hash_len, hlen _ _ _ _ hr]
  | compact tp =>
    rw [get_type_def_hash] at heq
    cases hr : recur tp v with
    | error e =>
      rw [hr, except_bind_error_eq] at heq
      cases heq
    | ok pr =>
      obtain ⟨h1, v1⟩ := pr
      rw [hr, except_bind_ok_eq] at heq
      cases heq
      simp [xorBytes_len, hash_len, hlen _ _ _ _ hr]
  | bitSequence a b =>
    rw [get_type_def_hash] at heq
    cases hr : recur a v with
    | error e =>
      rw [hr, except_bind_error_eq] at heq
      cases heq
    | ok pr =>
      obtain ⟨h1, v1⟩ := pr
      simp only [hr, except_bind_ok_eq] at heq
      cases hr2 : recur b v1 with
      | error e2 =>
        simp only [hr2, except_bind_error_eq] at heq
        cases heq
      | ok pr2 =>
        obtain ⟨h2, v2⟩ := pr2
        simp only [hr2, except_bind_ok_eq] at heq
        cases heq
        simp [xorBytes_len, hash_len, hlen _ _ _ _ hr, hlen _ _ _ _ hr2]

theorem get_type_hash_len (r : Registry) : ∀ fuel : Nat, RecurLen (get_type_hash r fuel) := by
  intro fuel
  induction fuel with
  | zero =>
    intro id v h v' heq
    cases heq
  | succ n ih =>
    intro id v h v' heq
    rw [get_type_hash] at heq
    by_cases hc : id ∈ v
    · rw [if_pos ((contains_true_iff v id).mpr hc)] at heq
      cases heq
      exact hash_len _
    · rw [if_neg (fun hct => hc ((contains_true_iff v id).mp hct))] at heq
      cases hr : r.resolve id with
      | none =>
        rw [hr] at heq
        cases heq
      | some td =>
        rw [hr] at heq
        exact get_type_def_hash_len ih td (id :: v) h v' heq

/-! ### Section 14: parsing lemmas (try_from and the events index) -/

theorem get_type_def_variant_error {types : Registry} {tid : Nat} {e : InvalidMetadataError}
    (h : get_type_def_variant types tid = .error e) :
    (e = .missingType tid ∧ types.resolve tid = none) ∨
    (∃ td, e = .typeDefNotVariant tid ∧ types.resolve tid = some td ∧ td.isVariantDef = false) := by
  unfold get_type_def_variant at h
  cases hr : types.resolve tid with
  | none =>
    rw [hr] at h
    cases h
    exact Or.inl ⟨rfl, rfl⟩
  | some td =>
    rw [hr] at h
    cases td <;> (cases h) <;> exact Or.inr ⟨_, rfl, rfl, rfl⟩

theorem buildEvents_error (types : Registry) :
    ∀ (ps : List PalletMetadata) (acc : EventsMap) (e : InvalidMetadataError),
    buildEvents types ps acc = .error e →
    ∃ tid, tid ∈ ps.filterMap PalletMetadata.event ∧
      ((e = .missingType tid ∧ types.resolve tid = none) ∨
       (∃ td, e = .typeDefNotVariant tid ∧ types.resolve tid = some td ∧
         td.isVariantDef = false)) := by
  intro ps
  induction ps with
  | nil => intro acc e h; cases h
  | cons p ps ih =>
    intro acc e h
    rw [buildEvents] at h
    cases hev : p.event with
    | none =>
      simp only [hev] at h
      obtain ⟨tid, hmem, hrest⟩ := ih acc e h
      refine ⟨tid, ?_, hrest⟩
      simp [List.filterMap_cons, hev, hmem]
    | some tid0 =>
      simp only [hev] at h
      cases hg : get_type_def_variant types tid0 with
      | error e0 =>
        rw [hg, except_bind_error_eq] at h
        cases h
        refine ⟨tid0, ?_, get_type_def_variant_error hg⟩
        simp [List.filterMap_cons, hev]
      | ok vars =>
        rw [hg, except_bind_ok_eq] at h
        obtain ⟨tid, hmem, hrest⟩ := ih _ e h
        refine ⟨tid, ?_, hrest⟩
        simp only [List.filterMap_cons, hev, List.mem_cons]
        exact Or.inr hmem

theorem insertPalletEvents_eq (pname : String) (pidx : Nat) :
    ∀ (vars : List Variant) (acc : EventsMap),
    insertPalletEvents pname pidx vars acc =
      (vars.map (variantEntry pname pidx)).reverse ++ acc := by
  intro vars
  induction vars with
  | nil => intro acc; rfl
  | cons v vs ih =>
    intro acc
    rw [show insertPalletEvents pname pidx (v :: vs) acc =
        insertPalletEvents pname pidx vs (variantEntry pname pidx v :: acc) from rfl]
    rw [ih]
    simp

theorem buildEvents_ok (types : Registry) :
    ∀ (ps : List PalletMetadata) (acc : EventsMap),
    (∀ p ∈ ps, ∀ tid, p.event = some tid →
      ∃ vars, types.resolve tid = some (.variant vars)) →
    buildEvents types ps acc = .ok ((declEntries types ps).reverse ++ acc) := by
  intro ps
  induction ps with
  | nil => intro acc _; simp [buildEvents, declEntries]
  | cons p ps ih =>
    intro acc hres
    have htail := fun q hq => hres q (List.mem_cons_of_mem _ hq)
    rw [buildEvents]
    cases hev : p.event with
    | none =>
      rw [ih acc htail]
      simp [declEntries, palletEventEntries, hev]
    | some tid =>
      obtain ⟨vars, hvars⟩ := hres p (List.mem_cons_self p ps) tid hev
      have hg : get_type_def_variant types tid = .ok vars := by
        simp [get_type_def_variant, hvars]
      simp only [hg, except_bind_ok_eq]
      rw [ih _ htail, insertPalletEvents_eq]
      simp [declEntries, palletEventEntries, hev, hvars, List.reverse_append, List.append_assoc]

theorem try_from_bad_magic {pm : RuntimeMetadataPrefixed} (h : pm.magic ≠ META_RESERVED) :
    Metadata.try_from pm = .error .invalidMagic := by
  simp [Metadata.try_from, h]

theorem try_from_bad_version {pm : RuntimeMetadataPrefixed} {v : Nat}
    (hm : pm.magic = META_RESERVED) (hv : pm.meta = .otherVersion v) :
    Metadata.try_from pm = .error .invalidVersion := by
  simp [Metadata.try_from, hm, hv]

theorem try_from_v14 {pm : RuntimeMetadataPrefixed} {m : RuntimeMetadataV14}
    (hm : pm.magic = META_RESERVED) (hv : pm.meta = .v14 m) :
    Metadata.try_from pm = (buildEvents m.types m.pallets [] >>= fun evs =>
      .ok { metadata := m, events := evs, cached_storage_hashes := [] }) := by
  simp [Metadata.try_from, hm, hv]

theorem lookupEvent_cons (k0 : Nat × Nat) (e0 : EventMetadata) (m : EventsMap) (k : Nat × Nat) :
    lookupEvent ((k0, e0) :: m) k = if k0 = k then some e0 else lookupEvent m k := by
  rcases eq_or_ne k0 k with he | hne
  · subst he
    rw [if_pos rfl]
    unfold lookupEvent
    rw [List.find?_cons_of_pos _ (by simp)]
    rfl
  · rw [if_neg hne]
    unfold lookupEvent
    rw [List.find?_cons_of_neg _ (by simp [hne])]

theorem lookupEvent_eq_none_iff (m : EventsMap) (k : Nat × Nat) :
    lookupEvent m k = none ↔ k ∉ m.map Prod.fst := by
  induction m with
  | nil => simp [lookupEvent]
  | cons kv m ih =>
    obtain ⟨k0, e0⟩ := kv
    rw [lookupEvent_cons]
    rcases eq_or_ne k0 k with he | hne
    · subst he
      simp
    · simp [hne, ih, Ne.symm hne]

theorem lookupEvent_mem_nodup {L : EventsMap} (hnd : (L.map Prod.fst).Nodup)
    {k : Nat × Nat} {e : EventMetadata} (hmem : (k, e) ∈ L) :
    lookupEvent L k = some e := by
  induction L with
  | nil => cases hmem
  | cons kv L ih =>
    obtain ⟨k0, e0⟩ := kv
    rw [List.map_cons, List.nodup_cons] at hnd
    obtain ⟨hnk, hndt⟩ := hnd
    rw [lookupEvent_cons]
    rcases List.mem_cons.mp hmem with he | hmemt
    · cases he
      rw [if_pos rfl]
    · have hkt : k ∈ L.map Prod.fst := List.mem_map.mpr ⟨(k, e), hmemt, rfl⟩
      have hne : k0 ≠ k := fun hke => hnk (hke ▸ hkt)
      rw [if_neg hne]
      exact ih hndt hmemt

/-! ### Section 15: storage-hash lemmas -/

theorem except_map_error {ε α β : Type} (f : α → β) (e : ε) :
    (Except.error e : Except ε α).map f = .error e := rfl

theorem except_map_ok {ε α β : Type} (f : α → β) (x : α) :
    (Except.ok x : Except ε α).map f = .ok (f x) := rfl

theorem freeIds_lt_storageFuel (r : Registry) : freeIds r [] < storageFuel r := by
  unfold storageFuel freeIds
  have h1 : (domIds r).countP (fun i => !(List.contains [] i)) ≤ (domIds r).length :=
    List.countP_le_length _
  have h2 : (domIds r).length ≤ (r.types.map Prod.fst).length :=
    (List.dedup_sublist _).length_le
  rw [List.length_map] at h2
  omega

theorem storage_base_len (en : StorageEntryMetadata) : (storageBaseBytes en).length = 32 := by
  simp [storageBaseBytes, xorBytes_len, hash_len]

theorem hashersFold_len : ∀ (hashers : List StorageHasher) (b : Hash),
    b.length = 32 → (hashersFold hashers b).length = 32 := by
  intro hashers
  induction hashers with
  | nil => intro b hb; exact hb
  | cons hr hs ih =>
    intro b _
    rw [show hashersFold (hr :: hs) b =
      hashersFold hs (hash_hashes b (List.replicate 32 hr.toByte)) from rfl]
    exact ih _ (hash_hashes_len _ _)

theorem get_storage_entry_hash_ok {r : Registry} (hclosed : RegistryClosed r)
    (en : StorageEntryMetadata) (hids : ∀ i ∈ en.ty.entryIds, r.resolve i ≠ none) :
    ∃ h v', get_storage_entry_hash r (storageFuel r) en [] = .ok (h, v') ∧ h.length = 32 := by
  have hfuel := freeIds_lt_storageFuel r
  cases hty : en.ty with
  | plain tid =>
    rw [hty] at hids
    simp only [StorageEntryType.entryIds, List.mem_singleton] at hids
    obtain ⟨h, v', heq, _⟩ := get_type_hash_total r hclosed (storageFuel r) tid [] hfuel
      (Or.inr (hids tid rfl))
    refine ⟨xorBytes (storageBaseBytes en) h, v', ?_, ?_⟩
    · simp [get_storage_entry_hash, storageBaseBytes, hty, heq, except_bind_ok_eq]
    · have hl := get_type_hash_len r (storageFuel r) tid [] h v' heq
      simp [xorBytes_len, storage_base_len, hl]
  | map hashers key value =>
    rw [hty] at hids
    simp only [StorageEntryType.entryIds, List.mem_cons, List.mem_singleton] at hids
    obtain ⟨kh, v1, hkeq, hks⟩ := get_type_hash_total r hclosed (storageFuel r) key [] hfuel
      (Or.inr (hids key (Or.inl rfl)))
    have hfuel1 : freeIds r v1 < storageFuel r := by
      have := freeIds_mono r hks
      omega
    obtain ⟨vh, v2, hveq, _⟩ := get_type_hash_total r hclosed (storageFuel r) value v1 hfuel1
      (Or.inr (hids value (Or.inr (Or.inl rfl))))
    refine ⟨xorBytes (xorBytes (hashersFold hashers (storageBaseBytes en)) kh) vh, v2, ?_, ?_⟩
    · simp [get_storage_entry_hash, storageBaseBytes, hashersFold, hty, hkeq, hveq,
        except_bind_ok_eq]
    · have hkl := get_type_hash_len r (storageFuel r) key [] kh v1 hkeq
      have hvl := get_type_hash_len r (storageFuel r) value v1 vh v2 hveq
      have hfl := hashersFold_len hashers (storageBaseBytes en) (storage_base_len en)
      simp [xorBytes_len, hfl, hkl, hvl]

theorem pallets_find_none_iff (m : RuntimeMetadataV14) (p : String) :
    m.pallets.find? (fun q => q.name == p) = none ↔ ∀ q ∈ m.pallets, q.name ≠ p := by
  rw [List.find?_eq_none]
  constructor
  · intro h q hq
    have := h q hq
    simpa using this
  · intro h q hq
    simpa using h q hq

theorem get_storage_hash_no_pallet {m : RuntimeMetadataV14} {p s : String}
    (h : m.pallets.find? (fun q => q.name == p) = none) :
    get_storage_hash m p s = .ok (.error .pallet) := by
  simp [get_storage_hash, h]

theorem get_storage_hash_no_storage {m : RuntimeMetadataV14} {p s : String}
    {q : PalletMetadata} (hf : m.pallets.find? (fun q0 => q0.name == p) = some q)
    (hs : q.storage = none) :
    get_storage_hash m p s = .ok (.error .item) := by
  simp [get_storage_hash, hf, hs]

theorem get_storage_hash_no_entry {m : RuntimeMetadataV14} {p s : String}
    {q : PalletMetadata} {st : PalletStorageMetadata}
    (hf : m.pallets.find? (fun q0 => q0.name == p) = some q)
    (hs : q.storage = some st)
    (he : st.entries.find? (fun en => en.name == s) = none) :
    get_storage_hash m p s = .ok (.error .item) := by
  simp [get_storage_hash, hf, hs, he]

theorem get_storage_hash_entry_ok {m : RuntimeMetadataV14} {p s : String}
    {q : PalletMetadata} {st : PalletStorageMetadata} {en : StorageEntryMetadata}
    {h : Hash} {v' : List Nat}
    (hf : m.pallets.find? (fun q0 => q0.name == p) = some q)
    (hs : q.storage = some st)
    (he : st.entries.find? (fun en0 => en0.name == s) = some en)
    (hh : get_storage_entry_hash m.types (storageFuel m.types) en [] = .ok (h, v')) :
    get_storage_hash m p s = .ok (.ok h) := by
  simp [get_storage_hash, hf, hs, he, hh, except_bind_ok_eq]

theorem get_storage_hash_entry_panic {m : RuntimeMetadataV14} {p s : String}
    {q : PalletMetadata} {st : PalletStorageMetadata} {en : StorageEntryMetadata}
    {e : Panic}
    (hf : m.pallets.find? (fun q0 => q0.name == p) = some q)
    (hs : q.storage = some st)
    (he : st.entries.find? (fun en0 => en0.name == s) = some en)
    (hh : get_storage_entry_hash m.types (storageFuel m.types) en [] = .error e) :
    get_storage_hash m p s = .error e := by
  simp [get_storage_hash, hf, hs, he, hh, except_bind_error_eq]

theorem storage_hash_fresh_ok {m : RuntimeMetadataV14} {p s : String}
    {r : Except NotFound Hash} (h : get_storage_hash m p s = .ok r) :
    (freshMetadata m).storage_hash p s =
      .ok (r.mapError metaErrOf,
        { metadata := m, events := [],
          cached_storage_hashes := [((p, s), r.mapError metaErrOf)] }) := by
  simp [Metadata.storage_hash, HashCache.get_or_insert, lookupCache, freshMetadata, h,
    except_bind_ok_eq, except_map_ok]

theorem storage_hash_fresh_panic {m : RuntimeMetadataV14} {p s : String}
    {e : Panic} (h : get_storage_hash m p s = .error e) :
    (freshMetadata m).storage_hash p s = .error e := by
  simp [Metadata.storage_hash, HashCache.get_or_insert, lookupCache, freshMetadata, h,
    except_bind_error_eq, except_map_error]

theorem lookupCache_insert_self (p s : String) (res : Except MetadataError Hash)
    (c : HashCache) : lookupCache (((p, s), res) :: c) p s = some res := by
  unfold lookupCache
  rw [List.find?_cons_of_pos _ (by simp)]
  rfl

theorem storage_hash_cached {m : Metadata} {p s : String} {res : Except MetadataError Hash}
    (h : lookupCache m.cached_storage_hashes p s = some res) :
    m.storage_hash p s = .ok (res, m) := by
  cases m with
  | mk a b c =>
    simp only [Metadata.storage_hash, HashCache.get_or_insert] at *
    rw [h]
    rfl

/-! ### Section 16: the claims -/

/-- C1: for every input metadata blob, try_from fails with InvalidPrefix
(`invalidMagic` here) if the 4-byte magic prefix is wrong; otherwise with
InvalidVersion if the version is not V14; otherwise any error it returns is
MissingType id for some pallet event type id that does not resolve, or
TypeDefNotVariant id for one that resolves to a non-variant definition — and
being a total Lean function it returns an error rather than panicking. -/
theorem claim_C1_parse_errors : ∀ pm : RuntimeMetadataPrefixed,
    (pm.magic ≠ META_RESERVED → Metadata.try_from pm = .error .invalidMagic) ∧
    (∀ v, pm.magic = META_RESERVED → pm.meta = .otherVersion v →
      Metadata.try_from pm = .error .invalidVersion) ∧
    (∀ m e, pm.magic = META_RESERVED → pm.meta = .v14 m →
      Metadata.try_from pm = .error e →
      ∃ tid, tid ∈ eventTypeIds m ∧
        ((e = .missingType tid ∧ m.types.resolve tid = none) ∨
         (∃ td, e = .typeDefNotVariant tid ∧ m.types.resolve tid = some td ∧
           td.isVariantDef = false))) := by
  intro pm
  refine ⟨?_, ?_, ?_⟩
  · intro h
    exact try_from_bad_magic h
  · intro v hm hv
    exact try_from_bad_version hm hv
  · intro m e hm hv herr
    rw [try_from_v14 hm hv] at herr
    cases hbe : buildEvents m.types m.pallets [] with
    | ok evs =>
      rw [hbe, except_bind_ok_eq] at herr
      cases herr
    | error e0 =>
      rw [hbe, except_bind_error_eq] at herr
      cases herr
      exact buildEvents_error m.types m.pallets [] _ hbe

/-- Witness for C1: a wrong magic prefix yields InvalidPrefix, a non-V14
version yields InvalidVersion, and a missing event type id yields
MissingType 7, each via claim_C1_parse_errors. -/
theorem claim_C1_witness :
    Metadata.try_from ⟨0, .v14 m14System⟩ = .error .invalidMagic ∧
    Metadata.try_from ⟨META_RESERVED, .otherVersion 13⟩ = .error .invalidVersion ∧
    ∃ tid, tid ∈ eventTypeIds m14missingEv ∧
      ((InvalidMetadataError.missingType 7 = .missingType tid ∧
        m14missingEv.types.resolve tid = none) ∨
       (∃ td, InvalidMetadataError.missingType 7 = .typeDefNotVariant tid ∧
         m14missingEv.types.resolve tid = some td ∧ td.isVariantDef = false)) :=
  ⟨(claim_C1_parse_errors ⟨0, .v14 m14System⟩).1 (by decide),
   (claim_C1_parse_errors ⟨META_RESERVED, .otherVersion 13⟩).2.1 13 rfl rfl,
   (claim_C1_parse_errors ⟨META_RESERVED, .v14 m14missingEv⟩).2.2 m14missingEv
     (.missingType 7) rfl rfl rfl⟩

/-- C3: for two registries describing structurally identical type graphs —
related by an injective renaming φ of the numeric type ids, everything else
equal — get_type_hash on corresponding ids yields bit-identical output at
every recursion budget, regardless of insertion order or id values. -/
theorem claim_C3_type_hash_deterministic : ∀ (r1 r2 : Registry) (φ : Nat → Nat),
    Function.Injective φ →
    (∀ id, r2.resolve (φ id) = Option.map (mapTypeDef φ) (r1.resolve id)) →
    ∀ (fuel id : Nat),
    hashOut (get_type_hash r2 fuel (φ id) []) = hashOut (get_type_hash r1 fuel id []) := by
  intro r1 r2 φ hinj hiso fuel id
  have hmap := get_type_hash_map hinj hiso fuel id []
  simp only [List.map_nil] at hmap
  rw [hmap]
  cases get_type_hash r1 fuel id [] with
  | ok pr =>
    obtain ⟨h, v⟩ := pr
    simp [mapRes, hashOut]
  | error e => cases e <;> simp [mapRes, hashOut]

/-- Witness for C3: the registries regIso1 and regIso2 hold the same u8 type
at ids 0 and 3; swapping ids with swap03 gives identical hashes. -/
theorem claim_C3_witness :
    Function.Injective swap03 ∧
    (∀ id, regIso2.resolve (swap03 id) = Option.map (mapTypeDef swap03) (regIso1.resolve id)) ∧
    hashOut (get_type_hash regIso2 2 (swap03 0) []) = hashOut (get_type_hash regIso1 2 0 []) := by
  have hinj : Function.Injective swap03 := by
    intro a b h
    unfold swap03 at h
    split_ifs at h <;> omega
  have hiso : ∀ id, regIso2.resolve (swap03 id) =
      Option.map (mapTypeDef swap03) (regIso1.resolve id) := by
    intro id
    by_cases h0 : id = 0
    · subst h0
      decide
    · by_cases h3 : id = 3
      · subst h3
        decide
      · have hs : swap03 id = id := by simp [swap03, h0, h3]
        rw [hs]
        have r2n : regIso2.resolve id = none := by
          unfold Registry.resolve regIso2
          rw [List.find?_cons_of_neg _ (by simp [Ne.symm h3])]
          rfl
        have r1n : regIso1.resolve id = none := by
          unfold Registry.resolve regIso1
          rw [List.find?_cons_of_neg _ (by simp [Ne.symm h0])]
          rfl
        rw [r2n, r1n]
        rfl
  exact ⟨hinj, hiso, claim_C3_type_hash_deterministic regIso1 regIso2 swap03 hinj hiso 2 0⟩

/-- C4: on a registry whose ids all resolve, get_type_hash terminates for every
resolvable starting id — there is one answer returned at every sufficient
recursion budget, the budget depending only on the registry — and any id
encountered a second time contributes the fixed sentinel hash `hash [123]`
instead of being recursed into. -/
theorem claim_C4_cycle_guard_terminates : ∀ (r : Registry) (id : Nat),
    RegistryClosed r → r.resolve id ≠ none →
    ((∀ (fuel i : Nat) (v : List Nat), i ∈ v →
        get_type_hash r (fuel + 1) i v = .ok (hash [123], v)) ∧
     ∃ h v', ∀ fuel, freeIds r [] < fuel → get_type_hash r fuel id [] = .ok (h, v')) := by
  intro r id hclosed hres
  constructor
  · intro fuel i v hiv
    simp [get_type_hash, hiv]
  · obtain ⟨h, v', heq, _⟩ := get_type_hash_total r hclosed (freeIds r [] + 1) id []
      (by omega) (Or.inr hres)
    refine ⟨h, v', ?_⟩
    intro fuel hfuel
    rcases get_type_hash_le r (freeIds r [] + 1) fuel (by omega) id [] with hfe | heqf
    · rw [heq] at hfe
      cases hfe
    · rw [heqf, heq]

/-- Witness for C4: the self-referential registry regSelf (type 0 is a sequence
of itself) satisfies the hypotheses, so hashing id 0 terminates. -/
theorem claim_C4_witness :
    RegistryClosed regSelf ∧ regSelf.resolve 0 ≠ none ∧
    ((∀ (fuel i : Nat) (v : List Nat), i ∈ v →
        get_type_hash regSelf (fuel + 1) i v = .ok (hash [123], v)) ∧
     ∃ h v', ∀ fuel, freeIds regSelf [] < fuel →
       get_type_hash regSelf fuel 0 [] = .ok (h, v')) :=
  ⟨by unfold RegistryClosed; decide, by decide,
   claim_C4_cycle_guard_terminates regSelf 0 (by unfold RegistryClosed; decide) (by decide)⟩

/-- C6 (hash_cache.rs is modelled from the spec, being absent from src): once
get_or_insert has populated a key, every later get_or_insert for that key
returns the identical stored result with the cache unchanged, whatever closure
the later call supplies — so the closure is invoked at most once per key. -/
theorem claim_C6_cache_idempotent :
    ∀ (c : HashCache) (p i : String) (f : Unit → PanicM (Except MetadataError Hash))
      (r : Except MetadataError Hash) (c' : HashCache),
    HashCache.get_or_insert c p i f = .ok (r, c') →
    ∀ g, HashCache.get_or_insert c' p i g = .ok (r, c') := by
  intro c p i f r c' h g
  unfold HashCache.get_or_insert at h
  cases hl : lookupCache c p i with
  | some r0 =>
    rw [hl] at h
    cases h
    unfold HashCache.get_or_insert
    rw [hl]
  | none =>
    rw [hl] at h
    cases hf : f () with
    | error e =>
      rw [hf, except_bind_error_eq] at h
      cases h
    | ok r0 =>
      rw [hf, except_bind_ok_eq] at h
      cases h
      unfold HashCache.get_or_insert
      rw [lookupCache_insert_self]

/-- Witness for C6: a first call with closure cacheF populates the key; the
second call with the different closure cacheG returns the first stored result. -/
theorem claim_C6_witness :
    HashCache.get_or_insert [] "Sys" "X" cacheF =
      .ok (.ok (hash [0]), [(("Sys", "X"), .ok (hash [0]))]) ∧
    HashCache.get_or_insert [(("Sys", "X"), .ok (hash [0]))] "Sys" "X" cacheG =
      .ok (.ok (hash [0]), [(("Sys", "X"), .ok (hash [0]))]) :=
  ⟨rfl, claim_C6_cache_idempotent [] "Sys" "X" cacheF _ _ rfl cacheG⟩

/-- C9: from_rpc_client joins the runtime_version and metadata fetch results;
if either is an error, construction returns that error and no client value is
produced (the runtime_version error when both fail, per evaluation order); when
both succeed, the client's metadata and runtime_version accessors return
exactly the two fetched values. -/
theorem claim_C9_online_client_construction :
    ∀ (e : Error) (mdRes : Except Error Metadata) (rv : RuntimeVersion) (md : Metadata),
    OnlineClient.from_rpc_client (.error e) mdRes = .error e ∧
    OnlineClient.from_rpc_client (.ok rv) (.error e) = .error e ∧
    OnlineClient.from_rpc_client (.ok rv) (.ok md) = .ok ⟨rv, md⟩ ∧
    (OnlineClient.mk rv md).metadata = md ∧
    (OnlineClient.mk rv md).runtime_version = rv := by
  intro e mdRes rv md
  exact ⟨rfl, rfl, rfl, rfl, rfl⟩

/-- C10 counterexample: the scenario JSON deserializes as claimed, but
re-serializing with the extra fields in the order wibble-before-foo — a
legitimate iteration order for the unordered HashMap holding them (and the
source derives no Serialize for RuntimeVersion at all) — does not reproduce
the identical JSON text, refuting the round-trip half of the claim. -/
theorem claim_C10_counterexample :
    runtimeVersionFromJson inputJson = some rvExpected ∧
    (rvExpected.other.map Prod.fst).Perm ["wibble", "foo"] ∧
    runtimeVersionToJsonText rvExpected ["wibble", "foo"] ≠ inputText := by
  refine ⟨rfl, by decide, by decide⟩

/-- C10 amended: deserializing the scenario JSON yields spec_version 123,
transaction_version 456 and exactly the foo/wibble extra fields; the input
value renders back to the identical text, and a serde-style serializer
reproduces the identical text exactly when it emits the extra fields in the
input's order (foo before wibble) — the source itself derives no Serialize. -/
theorem claim_C10_amended :
    runtimeVersionFromJson inputJson = some rvExpected ∧
    rvExpected.spec_version = 123 ∧
    rvExpected.transaction_version = 456 ∧
    rvExpected.other = [("foo", .bool true), ("wibble", .arr [.num 1, .num 2, .num 3])] ∧
    renderJson inputJson = inputText ∧
    runtimeVersionToJsonText rvExpected ["foo", "wibble"] = inputText := by
  exact ⟨rfl, rfl, rfl, rfl, by decide, by decide⟩

/-- C5 counterexample: in the storage-entry hash of a keyed (Map) entry the key
and value type hashes are folded in by XOR, not concatenate-then-rehash; two
structurally identical types at distinct ids hash equally, so their XOR
contributions cancel: the u32/u32 entry and the u64/u64 entry differ only in
key/value types yet produce the same entry hash (while u32 and u64 themselves
hash differently), refuting the claim. -/
theorem claim_C5_counterexample :
    hashOut (get_storage_entry_hash regKV (storageFuel regKV) entryKV32 []) =
      hashOut (get_storage_entry_hash regKV (storageFuel regKV) entryKV64 []) ∧
    entryKV32.ty ≠ entryKV64.ty ∧
    hashOut (get_type_hash regKV (storageFuel regKV) 0 []) ≠
      hashOut (get_type_hash regKV (storageFuel regKV) 2 []) := by
  exact ⟨by decide, by decide, by decide⟩

/-- C5 amended: in the keyed (Map) storage-entry hash the hasher kind
discriminants are folded in order-sensitively (hash_hashes), but the key type
hash and the value type hash are folded in via XOR; consequently whenever the
key and value sub-hashes are equal they cancel out of the entry hash entirely,
leaving only the name/modifier/default/hasher contribution. -/
theorem claim_C5_amended : ∀ (r : Registry) (fuel : Nat) (nm : String)
    (modifier : StorageEntryModifier) (dflt : List Nat) (docs : List String)
    (hashers : List StorageHasher) (key value : Nat) (v : List Nat),
    (get_storage_entry_hash r fuel ⟨nm, modifier, .map hashers key value, dflt, docs⟩ v =
      do
        let pk ← get_type_hash r fuel key v
        let pv ← get_type_hash r fuel value pk.2
        Except.ok (xorBytes (xorBytes (hashersFold hashers
          (storageBaseBytes ⟨nm, modifier, .map hashers key value, dflt, docs⟩)) pk.1) pv.1,
          pv.2)) ∧
    (∀ kh v1 vh v2, get_type_hash r fuel key v = .ok (kh, v1) →
      get_type_hash r fuel value v1 = .ok (vh, v2) → kh = vh →
      get_storage_entry_hash r fuel ⟨nm, modifier, .map hashers key value, dflt, docs⟩ v =
        .ok (hashersFold hashers
          (storageBaseBytes ⟨nm, modifier, .map hashers key value, dflt, docs⟩), v2)) := by
  intro r fuel nm modifier dflt docs hashers key value v
  constructor
  · cases hk : get_type_hash r fuel key v with
    | error e =>
      simp [get_storage_entry_hash, storageBaseBytes, hashersFold, hk, except_bind_error_eq]
    | ok pk =>
      obtain ⟨kh, v1⟩ := pk
      cases hv : get_type_hash r fuel value v1 with
      | error e =>
        simp [get_storage_entry_hash, storageBaseBytes, hashersFold, hk, hv,
          except_bind_error_eq, except_bind_ok_eq]
      | ok pv =>
        obtain ⟨vh, v2⟩ := pv
        simp [get_storage_entry_hash, storageBaseBytes, hashersFold, hk, hv, except_bind_ok_eq]
  · intro kh v1 vh v2 hk hv hkv
    subst hkv
    have hklen : kh.length = 32 := get_type_hash_len r fuel key v kh v1 hk
    have hF : (hashersFold hashers
        (storageBaseBytes ⟨nm, modifier, .map hashers key value, dflt, docs⟩)).length = 32 :=
      hashersFold_len _ _ (storage_base_len _)
    have hcancel := xorBytes_cancel
      (hashersFold hashers (storageBaseBytes ⟨nm, modifier, .map hashers key value, dflt, docs⟩))
      kh (by rw [hF, hklen])
    simp [get_storage_entry_hash, storageBaseBytes, hashersFold, hk, hv, except_bind_ok_eq]
    simp only [storageBaseBytes, hashersFold] at hcancel
    exact hcancel

/-- Witness for C5 amended: on the u32/u32 map entry the key and value hashes
coincide, and the entry hash collapses to the hashers fold of the base bytes. -/
theorem claim_C5_witness :
    get_storage_entry_hash regKV 5 ⟨"E", .optional, .map [] 0 1, [], []⟩ [] =
      .ok (hashersFold [] (storageBaseBytes ⟨"E", .optional, .map [] 0 1, [], []⟩), [1, 0]) :=
  (claim_C5_amended regKV 5 "E" .optional [] [] [] 0 1 []).2
    (hash [5, 5]) [0] (hash [5, 5]) [1, 0] (by decide) (by decide) rfl

/-- C8 counterexample: a parsed metadata may contain a storage entry whose type
id does not resolve (parsing validates only event types); on it, storage_hash
panics — the Rust `resolve(id).unwrap()` — instead of yielding a hash, refuting
"yields a 32-byte hash for every type id it reaches, including type ids that
do not resolve". -/
theorem claim_C8_counterexample :
    (freshMetadata m14unres).storage_hash "P" "S" = .error (.unresolvedType 5) ∧
    m14unres.types.resolve 5 = none ∧
    m14unres.pallets.map PalletMetadata.name = ["P"] ∧
    (palletUnres.storage.map (fun st => st.entries.map (fun e => e.name))) = some ["S"] := by
  exact ⟨by decide, by decide, by decide, by decide⟩

/-- C8 amended: provided the registry is closed and every storage entry's type
ids resolve, storage_hash returns a Result to the caller — PalletNotFound,
StorageNotFound or a hash — and never panics, for every queried name pair; when
a reached type id does not resolve, the code panics in the unwrap instead. -/
theorem claim_C8_amended : ∀ (m : RuntimeMetadataV14),
    RegistryClosed m.types → StorageIdsResolvable m → ∀ p s : String,
    ∃ res md', (freshMetadata m).storage_hash p s = .ok (res, md') := by
  intro m hclosed hids p s
  cases hf : m.pallets.find? (fun q => q.name == p) with
  | none =>
    exact ⟨_, _, storage_hash_fresh_ok (get_storage_hash_no_pallet hf)⟩
  | some q =>
    cases hs : q.storage with
    | none => exact ⟨_, _, storage_hash_fresh_ok (get_storage_hash_no_storage hf hs)⟩
    | some st =>
      cases he : st.entries.find? (fun en => en.name == s) with
      | none => exact ⟨_, _, storage_hash_fresh_ok (get_storage_hash_no_entry hf hs he)⟩
      | some en =>
        have hqm := List.mem_of_find?_eq_some hf
        have henm := List.mem_of_find?_eq_some he
        have hidsen := hids q hqm st hs en henm
        obtain ⟨h, v', hh, _⟩ := get_storage_entry_hash_ok hclosed en hidsen
        exact ⟨_, _, storage_hash_fresh_ok (get_storage_hash_entry_ok hf hs he hh)⟩

/-- Witness for C8 amended: the System/Account metadata satisfies both
hypotheses and every query — here System/Account and a missing pallet — returns
a Result without panicking. -/
theorem claim_C8_witness :
    RegistryClosed m14System.types ∧ StorageIdsResolvable m14System ∧
    (∃ res md', (freshMetadata m14System).storage_hash "System" "Account" = .ok (res, md')) ∧
    (∃ res md', (freshMetadata m14System).storage_hash "NoPallet" "X" = .ok (res, md')) :=
  ⟨by unfold RegistryClosed; decide, by unfold StorageIdsResolvable; decide,
   claim_C8_amended m14System (by unfold RegistryClosed; decide)
     (by unfold StorageIdsResolvable; decide) "System" "Account",
   claim_C8_amended m14System (by unfold RegistryClosed; decide)
     (by unfold StorageIdsResolvable; decide) "NoPallet" "X"⟩

/-- C2 counterexample: two pallets may share pallet index 0 (nothing in
try_from forbids it); the later HashMap insert overwrites the earlier, so
event(0, 0) returns pallet B's metadata even though pallet A (name "A",
index 0) declared variant 0 — the claimed lookup result for pallet A is not
returned, refuting the claim as universally stated. -/
theorem claim_C2_counterexample :
    (Metadata.try_from pmDup).map (fun md => (md.event 0 0).map EventMetadata.pallet) =
      .ok (.ok "B") ∧
    palletA.name = "A" ∧ palletA.index = 0 ∧ palletA.event = some 0 ∧
    regDup.resolve 0 = some (.variant [⟨"EvA", [], 0, []⟩]) ∧
    ("B" : String) ≠ "A" := by
  exact ⟨by decide, rfl, rfl, rfl, by decide, by decide⟩

/-- C2 amended: for every correctly prefixed V14 metadata whose pallet event
type ids all resolve to variant definitions, and in which no two declared
(pallet index, variant index) pairs coincide (no runtime declares duplicates),
try_from succeeds; event(P.index, V.index) returns the EventMetadata holding
P's name, V's name, V's (optional field name, type id) pairs and V's docs; and
every undeclared pair fails with EventNotFound. -/
theorem claim_C2_amended : ∀ m : RuntimeMetadataV14,
    EventsResolvable m → (declaredPairs m).Nodup →
    ∃ md, Metadata.try_from ⟨META_RESERVED, .v14 m⟩ = .ok md ∧
      (∀ p ∈ m.pallets, ∀ tid, p.event = some tid → ∀ vars,
        m.types.resolve tid = some (.variant vars) → ∀ v ∈ vars,
        md.event p.index v.index = .ok
          { pallet := p.name, event := v.name,
            fields := v.fields.map (fun f => (f.name, f.ty)), docs := v.docs }) ∧
      (∀ pi vi, (pi, vi) ∉ declaredPairs m →
        md.event pi vi = .error (.eventNotFound pi vi)) := by
  intro m hres hnd
  have hbe := buildEvents_ok m.types m.pallets [] hres
  have htf := @try_from_v14 ⟨META_RESERVED, .v14 m⟩ m rfl rfl
  rw [hbe, except_bind_ok_eq, List.append_nil] at htf
  refine ⟨_, htf, ?_, ?_⟩
  · intro p hp tid hev vars hvars v hv
    have hentry : variantEntry p.name p.index v ∈ declEntries m.types m.pallets := by
      unfold declEntries
      refine List.mem_flatten.mpr ⟨palletEventEntries m.types p, List.mem_map_of_mem _ hp, ?_⟩
      unfold palletEventEntries
      simp only [hev, hvars]
      exact List.mem_map_of_mem _ hv
    have hnd' : (((declEntries m.types m.pallets).reverse).map Prod.fst).Nodup := by
      rw [List.map_reverse]
      exact List.nodup_reverse.mpr hnd
    have hmem : ((p.index, v.index),
        ({ pallet := p.name, event := v.name,
           fields := v.fields.map (fun f => (f.name, f.ty)),
           docs := v.docs } : EventMetadata)) ∈
        ((declEntries m.types m.pallets).reverse) := by
      rw [List.mem_reverse]
      exact hentry
    have hfound := lookupEvent_mem_nodup hnd' hmem
    simp [Metadata.event, hfound]
  · intro pi vi hnotin
    have hnone : lookupEvent ((declEntries m.types m.pallets).reverse) (pi, vi) = none := by
      rw [lookupEvent_eq_none_iff, List.map_reverse, List.mem_reverse]
      exact hnotin
    simp [Metadata.event, hnone]

/-- Witness for C2 amended: the one-pallet metadata m14evt parses; its single
declared event resolves to the declared EventMetadata and an undeclared pair
fails with EventNotFound. -/
theorem claim_C2_witness :
    EventsResolvable m14evt ∧ (declaredPairs m14evt).Nodup ∧
    ∃ md, Metadata.try_from ⟨META_RESERVED, .v14 m14evt⟩ = .ok md ∧
      md.event 0 0 = .ok ⟨"Sys", "E0", [(some "a", 0)], ["d"]⟩ ∧
      md.event 0 1 = .error (.eventNotFound 0 1) := by
  have hres : EventsResolvable m14evt := by
    intro p hp tid hev
    simp only [m14evt, List.mem_singleton] at hp
    subst hp
    rw [show palletEvt.event = some 1 from rfl] at hev
    cases hev
    exact ⟨[variantE0], rfl⟩
  have hnd : (declaredPairs m14evt).Nodup := by decide
  obtain ⟨md, htf, hpos, hneg⟩ := claim_C2_amended m14evt hres hnd
  refine ⟨hres, hnd, md, htf, ?_, ?_⟩
  · have := hpos palletEvt (by simp [m14evt]) 1 rfl [variantE0] rfl variantE0 (by simp)
    simpa [palletEvt, variantE0] using this
  · exact hneg 0 1 (by decide)

/-- C7 counterexample: a metadata whose pallet Q and entry T both exist, but
whose Map key type id 9 does not resolve: storage_hash panics (the unwrap on
resolve) instead of returning a 32-byte hash, refuting the claim's "otherwise
it returns a 32-byte hash". -/
theorem claim_C7_counterexample :
    (freshMetadata m14unresMap).storage_hash "Q" "T" = .error (.unresolvedType 9) ∧
    m14unresMap.pallets.map PalletMetadata.name = ["Q"] ∧
    (palletUnresMap.storage.map (fun st => st.entries.map (fun e => e.name))) = some ["T"] ∧
    m14unresMap.types.resolve 9 = none := by
  exact ⟨by decide, by decide, by decide, by decide⟩

/-- C7 amended: on a freshly parsed Metadata, storage_hash fails with
PalletNotFound exactly when no pallet bears the queried name; when the first
pallet of that name has no storage section or no entry of the queried name it
fails with StorageNotFound; and when the entry exists and its reachable type
ids resolve (the amendment — otherwise the code panics), it returns a 32-byte
hash, and the repeated call returns the identical cached hash. -/
theorem claim_C7_amended : ∀ (m : RuntimeMetadataV14) (p s : String),
    ((∃ md', (freshMetadata m).storage_hash p s = .ok (.error .palletNotFound, md')) ↔
      m.pallets.find? (fun q => q.name == p) = none) ∧
    (m.pallets.find? (fun q => q.name == p) = none ↔ ∀ q ∈ m.pallets, q.name ≠ p) ∧
    (∀ q, m.pallets.find? (fun q0 => q0.name == p) = some q →
      (q.storage = none ∨ ∃ st, q.storage = some st ∧
        st.entries.find? (fun en => en.name == s) = none) →
      ∃ md', (freshMetadata m).storage_hash p s = .ok (.error .storageNotFound, md')) ∧
    (∀ q st en, m.pallets.find? (fun q0 => q0.name == p) = some q →
      q.storage = some st → st.entries.find? (fun en0 => en0.name == s) = some en →
      RegistryClosed m.types → (∀ i ∈ en.ty.entryIds, m.types.resolve i ≠ none) →
      ∃ h md', (freshMetadata m).storage_hash p s = .ok (.ok h, md') ∧ h.length = 32 ∧
        md'.storage_hash p s = .ok (.ok h, md')) := by
  intro m p s
  refine ⟨?_, pallets_find_none_iff m p, ?_, ?_⟩
  · constructor
    · rintro ⟨md', hmd⟩
      cases hf : m.pallets.find? (fun q => q.name == p) with
      | none => rfl
      | some q =>
        exfalso
        cases hs : q.storage with
        | none =>
          have h1 := @storage_hash_fresh_ok m p s _ (@get_storage_hash_no_storage m p s q hf hs)
          rw [hmd] at h1
          simp [Except.mapError, metaErrOf] at h1
        | some st =>
          cases he : st.entries.find? (fun en => en.name == s) with
          | none =>
            have h1 := storage_hash_fresh_ok (get_storage_hash_no_entry hf hs he)
            rw [hmd] at h1
            simp [Except.mapError, metaErrOf] at h1
          | some en =>
            cases hh : get_storage_entry_hash m.types (storageFuel m.types) en [] with
            | ok pr =>
              obtain ⟨h0, v0⟩ := pr
              have h1 := storage_hash_fresh_ok (get_storage_hash_entry_ok hf hs he hh)
              rw [hmd] at h1
              simp [Except.mapError] at h1
            | error e =>
              have h1 := storage_hash_fresh_panic (get_storage_hash_entry_panic hf hs he hh)
              rw [hmd] at h1
              cases h1
    · intro hf
      exact ⟨_, storage_hash_fresh_ok (get_storage_hash_no_pallet hf)⟩
  · intro q hf hcase
    rcases hcase with hs | ⟨st, hs, he⟩
    · exact ⟨_, storage_hash_fresh_ok (get_storage_hash_no_storage hf hs)⟩
    · exact ⟨_, storage_hash_fresh_ok (get_storage_hash_no_entry hf hs he)⟩
  · intro q st en hf hs he hclosed hids
    obtain ⟨h, v', hh, hlen⟩ := get_storage_entry_hash_ok hclosed en hids
    refine ⟨h, _, storage_hash_fresh_ok (get_storage_hash_entry_ok hf hs he hh), hlen, ?_⟩
    exact storage_hash_cached (lookupCache_insert_self p s _ [])

/-- Witness for C7 amended: on the spec's System/Account scenario the lookup
returns a stable 32-byte hash, equal on the repeated call, and querying a
missing pallet fails with PalletNotFound. -/
theorem claim_C7_witness :
    (∃ h md', (freshMetadata m14System).storage_hash "System" "Account" = .ok (.ok h, md') ∧
      h.length = 32 ∧ md'.storage_hash "System" "Account" = .ok (.ok h, md')) ∧
    (∃ md', (freshMetadata m14System).storage_hash "NoSuchPallet" "Account" =
      .ok (.error .palletNotFound, md')) :=
  ⟨(claim_C7_amended m14System "System" "Account").2.2.2 palletSystem stSystem accountEntry
     rfl rfl rfl (by unfold RegistryClosed; decide) (by decide),
   ((claim_C7_amended m14System "NoSuchPallet" "Account").1).mpr rfl⟩

end EventListener
